import Mathlib

/-!
# Verification of the CESMD V2 decoding engine

This file gives a shallow embedding, in Lean 4, of the V2-format decoding
engine of the CESMD V2 file converter (`src/cesmd_converter/parser.py`,
`src/cesmd_converter/models.py`, and the near-duplicate
`src/converter.py`), and proves or refutes the frozen specification
claims about it.

Modelling conventions:
* Python strings are Lean `String`s / `List Char`; Python floats are
  modelled by `ℚ` (none of the verified properties depend on rounding);
  dynamically-typed Python values are modelled by the `PyVal` sum type.
* Python's `re` library and `float()` builtin are external to the
  repository.  Where a claim is about the *control flow around* a regex
  (precedence, last-match-wins, fatal conditions), the embedding is
  parametric in the match results (`Matchers`); where a claim is about a
  specific concrete pattern (the multi-channel splitter), the pattern is
  implemented directly, following Python `re` leftmost / lazy /
  IGNORECASE / MULTILINE semantics for that pattern.
* Fallible paths are modelled with `Except` / `Option`.
-/

/- Batteries marks the `Rat` arithmetic primitives `@[irreducible]`; the
concrete witness evaluations below need them to reduce, which is harmless
for soundness (the kernel ignores reducibility attributes). -/
set_option allowUnsafeReducibility true
attribute [local semireducible] Rat.mul Rat.inv Rat.add Rat.sub Rat.neg Rat.div

namespace Cesmd

/-- Dynamically-typed Python value (`None`, `str`, `int`, `float`). -/
inductive PyVal where
  | none : PyVal
  | str : String → PyVal
  | int : Int → PyVal
  | float : ℚ → PyVal
deriving DecidableEq

/-- Python truthiness of a `PyVal` (`bool(v)`). -/
def pyTruthy : PyVal → Bool
  | .none => false
  | .str s => s ≠ ""
  | .int n => n ≠ 0
  | .float q => q ≠ 0

/-- The six ASCII characters matched by Python's `\s` / stripped by `str.strip()`. -/
def isPySpace (c : Char) : Bool :=
  c = ' ' || c = '\t' || c = '\n' || c = '\r' || c = '\x0b' || c = '\x0c'

/-- Value of a digit string, as folded up by Python `int()` on `\d+` captures. -/
def digitsVal (l : List Char) : Nat :=
  l.foldl (fun a c => 10 * a + (c.toNat - 48)) 0

/-- Python `int()` on the (all-digit) strings captured by the header regexes. -/
def strToInt (s : String) : Int :=
  (digitsVal s.toList : Int)

/-- Python `float()` on the unsigned decimal shapes (`\d+` optionally followed
by `.` and digits) produced by the header regex captures. -/
def pyFloatDec (s : String) : ℚ :=
  let l := s.toList
  let ip := l.takeWhile Char.isDigit
  match l.drop ip.length with
  | '.' :: fr =>
      let fd := fr.takeWhile Char.isDigit
      (digitsVal ip : ℚ) + (digitsVal fd : ℚ) / ((10 : ℚ) ^ fd.length)
  | _ => (digitsVal ip : ℚ)

/-- Python `str.strip()` (ASCII whitespace). -/
def pyStrip (s : String) : String :=
  String.mk (((s.toList.dropWhile isPySpace).reverse.dropWhile isPySpace).reverse)

/-- Python `str.upper()` on the ASCII zone abbreviations. -/
def pyUpper (s : String) : String :=
  String.mk (s.toList.map Char.toUpper)

/-- Python `str.lower()` on ASCII content (used before marker searches). -/
def pyLowerL (l : List Char) : List Char :=
  l.map Char.toLower

/-- `os.path.basename`, restricted to `/`-separated paths. -/
def pyBasename (s : String) : String :=
  ((s.splitOn "/").getLastD s)

/-- Python string slice `l[a:b]` for `0 ≤ a ≤ b` (clipped to the length). -/
def pySlice (l : List Char) (a b : Nat) : List Char :=
  (l.take b).drop a

/-- A model of Python's `float()` builtin restricted to optionally signed plain
decimal literals with surrounding blanks (the shapes that occur in V2
fixed-width data cells); every other string fails (`none`), as `float()`
raises `ValueError` there. -/
def floatModel (s : String) : Option ℚ :=
  let l := ((s.toList.dropWhile isPySpace).reverse.dropWhile isPySpace).reverse
  let sgn : ℚ × List Char :=
    match l with
    | '-' :: t => (-1, t)
    | '+' :: t => (1, t)
    | _ => (1, l)
  let ip := sgn.2.takeWhile Char.isDigit
  match sgn.2.drop ip.length with
  | [] => if ip.isEmpty then Option.none else some (sgn.1 * (digitsVal ip : ℚ))
  | '.' :: fr =>
      if fr.all Char.isDigit && !(ip.isEmpty && fr.isEmpty) then
        some (sgn.1 * ((digitsVal ip : ℚ) + (digitsVal fr : ℚ) / ((10 : ℚ) ^ fr.length)))
      else Option.none
  | _ => Option.none

/-! ## The `Metadata` mapping (`src/cesmd_converter/models.py`) -/

/-- The record-scoped metadata mapping: the fixed well-known fields of the
`Metadata` dataclass (all runtime-optional, default `None`, except the file
name/path which default to `""`), plus the open `extras` extension map. -/
structure Metadata where
  filename : PyVal
  filepath : PyVal
  utc_time : PyVal
  observation_time : PyVal
  channel_number : PyVal
  station_channel_number : PyVal
  obs_month : PyVal
  obs_day : PyVal
  obs_year : PyVal
  obs_hour : PyVal
  obs_minute : PyVal
  obs_second : PyVal
  obs_timezone : PyVal
  utc_month : PyVal
  utc_day : PyVal
  utc_year : PyVal
  utc_hour : PyVal
  utc_minute : PyVal
  utc_second : PyVal
  station_id : PyVal
  latitude : PyVal
  longitude : PyVal
  hypocenter_info : PyVal
  magnitude_info : PyVal
  instrument_period : PyVal
  sampling_rate : PyVal
  time_interval : PyVal
  peak_acceleration : PyVal
  peak_velocity : PyVal
  peak_displacement : PyVal
  extras : List (String × PyVal)
deriving DecidableEq

/-- The empty metadata record (all dataclass defaults). -/
def emptyMetadata : Metadata :=
  ⟨.str "", .str "", .none, .none, .none, .none, .none, .none, .none, .none,
   .none, .none, .none, .none, .none, .none, .none, .none, .none, .none,
   .none, .none, .none, .none, .none, .none, .none, .none, .none, .none, []⟩

instance : Inhabited Metadata := ⟨emptyMetadata⟩

/-- `Metadata._known_field_names()`: every dataclass field except `extras`. -/
def knownFieldNames : List String :=
  ["filename", "filepath", "utc_time", "observation_time", "channel_number",
   "station_channel_number", "obs_month", "obs_day", "obs_year", "obs_hour",
   "obs_minute", "obs_second", "obs_timezone", "utc_month", "utc_day",
   "utc_year", "utc_hour", "utc_minute", "utc_second", "station_id",
   "latitude", "longitude", "hypocenter_info", "magnitude_info",
   "instrument_period", "sampling_rate", "time_interval",
   "peak_acceleration", "peak_velocity", "peak_displacement"]

/-- `setattr(self, key, value)` for a known field name (no-op fallback for
unknown names, which `setItem` never reaches). -/
def setKnownField (m : Metadata) (k : String) (v : PyVal) : Metadata :=
  match k with
  | "filename" => { m with filename := v }
  | "filepath" => { m with filepath := v }
  | "utc_time" => { m with utc_time := v }
  | "observation_time" => { m with observation_time := v }
  | "channel_number" => { m with channel_number := v }
  | "station_channel_number" => { m with station_channel_number := v }
  | "obs_month" => { m with obs_month := v }
  | "obs_day" => { m with obs_day := v }
  | "obs_year" => { m with obs_year := v }
  | "obs_hour" => { m with obs_hour := v }
  | "obs_minute" => { m with obs_minute := v }
  | "obs_second" => { m with obs_second := v }
  | "obs_timezone" => { m with obs_timezone := v }
  | "utc_month" => { m with utc_month := v }
  | "utc_day" => { m with utc_day := v }
  | "utc_year" => { m with utc_year := v }
  | "utc_hour" => { m with utc_hour := v }
  | "utc_minute" => { m with utc_minute := v }
  | "utc_second" => { m with utc_second := v }
  | "station_id" => { m with station_id := v }
  | "latitude" => { m with latitude := v }
  | "longitude" => { m with longitude := v }
  | "hypocenter_info" => { m with hypocenter_info := v }
  | "magnitude_info" => { m with magnitude_info := v }
  | "instrument_period" => { m with instrument_period := v }
  | "sampling_rate" => { m with sampling_rate := v }
  | "time_interval" => { m with time_interval := v }
  | "peak_acceleration" => { m with peak_acceleration := v }
  | "peak_velocity" => { m with peak_velocity := v }
  | "peak_displacement" => { m with peak_displacement := v }
  | _ => m

/-- `getattr(self, key)` for a known field name (`.none` fallback). -/
def getKnownField (m : Metadata) (k : String) : PyVal :=
  match k with
  | "filename" => m.filename
  | "filepath" => m.filepath
  | "utc_time" => m.utc_time
  | "observation_time" => m.observation_time
  | "channel_number" => m.channel_number
  | "station_channel_number" => m.station_channel_number
  | "obs_month" => m.obs_month
  | "obs_day" => m.obs_day
  | "obs_year" => m.obs_year
  | "obs_hour" => m.obs_hour
  | "obs_minute" => m.obs_minute
  | "obs_second" => m.obs_second
  | "obs_timezone" => m.obs_timezone
  | "utc_month" => m.utc_month
  | "utc_day" => m.utc_day
  | "utc_year" => m.utc_year
  | "utc_hour" => m.utc_hour
  | "utc_minute" => m.utc_minute
  | "utc_second" => m.utc_second
  | "station_id" => m.station_id
  | "latitude" => m.latitude
  | "longitude" => m.longitude
  | "hypocenter_info" => m.hypocenter_info
  | "magnitude_info" => m.magnitude_info
  | "instrument_period" => m.instrument_period
  | "sampling_rate" => m.sampling_rate
  | "time_interval" => m.time_interval
  | "peak_acceleration" => m.peak_acceleration
  | "peak_velocity" => m.peak_velocity
  | "peak_displacement" => m.peak_displacement
  | _ => .none

/-- Python `dict` assignment `d[k] = v` on the `extras` association list:
replace in place if the key exists, else append. -/
def dictSet (d : List (String × PyVal)) (k : String) (v : PyVal) :
    List (String × PyVal) :=
  if d.any (fun p => p.1 == k) then
    d.map (fun p => if p.1 == k then (k, v) else p)
  else d ++ [(k, v)]

/-- `Metadata.__setitem__`: a known field name updates that field via
`setattr`; any other key goes to the `extras` map. -/
def setItem (m : Metadata) (k : String) (v : PyVal) : Metadata :=
  if k ∈ knownFieldNames then setKnownField m k v
  else { m with extras := dictSet m.extras k v }

/-- `Metadata.get(key, default)`: a known field yields the attribute unless it
is `None` (then the default); other keys are looked up in `extras`. -/
def Metadata.get (m : Metadata) (k : String) (dflt : PyVal) : PyVal :=
  if k ∈ knownFieldNames then
    if getKnownField m k = .none then dflt else getKnownField m k
  else
    match m.extras.find? (fun p => p.1 == k) with
    | some p => p.2
    | Option.none => dflt

/-- `Metadata.from_filepath`. -/
def Metadata.from_filepath (fp : String) : Metadata :=
  { emptyMetadata with filename := .str (pyBasename fp), filepath := .str fp }

/-- Fold a sequence of `__setitem__` stores into a metadata record. -/
def buildMetadata (fp : String) (ops : List (String × PyVal)) : Metadata :=
  ops.foldl (fun m p => setItem m p.1 p.2) (Metadata.from_filepath fp)

/-! ## Year normalization (`parser.py` lines 71–77 / 92–98) -/

/-- Normalization of a captured year string (`\d{2,4}`): a two-character
capture is pivoted at 90 (`≥ 90 → 1900 + y`, else `2000 + y`); any other
length is converted unchanged. -/
def normalizeYear (yearText : String) : Int :=
  if yearText.length = 2 then
    if strToInt yearText ≥ 90 then 1900 + strToInt yearText
    else 2000 + strToInt yearText
  else strToInt yearText

/-- The canonical two-character decimal rendering of `y < 100`. -/
def twoDigits (y : Nat) : String :=
  String.mk [Char.ofNat (48 + y / 10), Char.ofNat (48 + y % 10)]

/-- The canonical four-character decimal rendering of `y < 10000`. -/
def fourDigits (y : Nat) : String :=
  String.mk [Char.ofNat (48 + y / 1000), Char.ofNat (48 + y / 100 % 10),
             Char.ofNat (48 + y / 10 % 10), Char.ofNat (48 + y % 10)]

/-! ## Fixed-width series decoder (`parser.py` lines 176–184) -/

/-- All-or-nothing traversal of a list under a fallible conversion: the
semantics of the list comprehension `[float(...) for j in range(8) ...]`
under its enclosing `try`, where the first `ValueError` aborts the whole
comprehension. -/
def optMapAll (f : α → Option β) : List α → Option (List β)
  | [] => some []
  | a :: as =>
    match f a, optMapAll f as with
    | some b, some bs => some (b :: bs)
    | _, _ => Option.none

/-- The column slices of one data line that the decoder attempts: for
`j = 0..7`, the slice `line[10*j : 10*(j+1)]`, kept only when the clipped
slice is longer than 3 characters (`len(line[10*j:10+10*j]) > 3`). -/
def attemptedSlices (line : String) : List String :=
  (List.range 8).filterMap (fun j =>
    let sl := pySlice line.toList (10 * j) (10 * (j + 1))
    if 3 < sl.length then some (String.mk sl) else Option.none)

/-- Decode one data line: convert every attempted slice with `conv`
(modelling `float()`); if any conversion fails the `ValueError` aborts the
whole line and it contributes nothing (`except ValueError: pass`). -/
def decodeLine (conv : String → Option ℚ) (line : String) : List ℚ :=
  (optMapAll conv (attemptedSlices line)).getD []

/-- Decode the lines `content[s:e]` in order, concatenating each line's
decoded values (`acceleration_data.extend(values)`). -/
def decodeRange (conv : String → Option ℚ) (content : List String)
    (s e : Nat) : List ℚ :=
  (((content.drop s).take (e - s)).map (decodeLine conv)).flatten

/-! ## Header metadata extraction (`parser.py` lines 20–148)

The per-line regex searches are modelled parametrically: a `Matchers`
bundle gives, for each header pattern, the capture(s) of `re.search` on a
line (`none` models a failed search).  The update logic around the
matches — field assignments, conversions, year normalization, the
Start-time / ORIGIN precedence, last-match-wins — is translated from the
source. -/

/-- Captures of the "(Rcrd|Record) of ..." observation-date pattern
(groups 2–7; seconds are mandatory in this form). -/
structure DateCap where
  g0 : String
  month : String
  day : String
  year : String
  hour : String
  minute : String
  second : String
deriving DecidableEq

/-- Captures of the "Earthquake of ..." pattern (optional seconds, zone). -/
structure EarthCap where
  g0 : String
  month : String
  day : String
  year : String
  hour : String
  minute : String
  second : Option String
  tz : String
deriving DecidableEq

/-- Captures of the "Start time: m/d/y, h:m[:s] UTC|GMT" pattern, shared
with the "(ORIGIN...)" pattern (identical group layout). -/
structure UtcCap where
  g0 : String
  month : String
  day : String
  year : String
  hour : String
  minute : String
  second : Option String
deriving DecidableEq

/-- Captures of the "Station No. <id> <lat>N|S, <lon>E|W" pattern. -/
structure StationCap where
  id : String
  lat : String
  ns : String
  lon : String
  ew : String
deriving DecidableEq

/-- The results of the per-line `re.search` calls of the header scan,
one component per pattern.  Patterns whose numeric captures feed straight
into `float()` are collapsed to their converted value — which erases the
scan's uncaught conversion errors; `MatchersR` below keeps the raw
captures, and the claims about failure behaviour are stated over it.  The
collapsed form is exact on every run where the scan raises nothing, and is
what the success-conditioned claims use. -/
structure Matchers where
  chan : String → Option String
  staChan : String → Option String
  date : String → Option DateCap
  earth : String → Option EarthCap
  utc : String → Option UtcCap
  origin : String → Option UtcCap
  station : String → Option StationCap
  hypo : String → Bool
  magnitude : String → Option String
  instrPeriod : String → Option ℚ
  interval : String → Option ℚ
  peakAcc : String → Option ℚ
  peakVel : String → Option ℚ
  peakDisp : String → Option ℚ

/-- Scan state: the metadata record plus the local `sampling_rate`. -/
abbrev ScanState := Metadata × Option ℚ

/-- The seven UTC-field assignments shared verbatim by the Start-time and
ORIGIN branches (`parser.py` 68–81 and 89–102). -/
def utcFieldsSet (m : Metadata) (c : UtcCap) : Metadata :=
  let m := setItem m "utc_time" (.str c.g0)
  let m := setItem m "utc_month" (.int (strToInt c.month))
  let m := setItem m "utc_day" (.int (strToInt c.day))
  let m := setItem m "utc_year" (.int (normalizeYear c.year))
  let m := setItem m "utc_hour" (.int (strToInt c.hour))
  let m := setItem m "utc_minute" (.int (strToInt c.minute))
  setItem m "utc_second"
    (.float (match c.second with | some s => pyFloatDec s | Option.none => 0))

/-- "Chan <int>" branch. -/
def applyChan (M : Matchers) (line : String) (st : ScanState) : ScanState :=
  match M.chan line with
  | some g => (setItem st.1 "channel_number" (.int (strToInt g)), st.2)
  | Option.none => st

/-- "(Sta Chn: <int>)" branch. -/
def applyStaChan (M : Matchers) (line : String) (st : ScanState) : ScanState :=
  match M.staChan line with
  | some g => (setItem st.1 "station_channel_number" (.int (strToInt g)), st.2)
  | Option.none => st

/-- Observation-date branch: the record-of form, else the earthquake-of
form (tried only when the first fails on the line). -/
def applyDate (M : Matchers) (line : String) (st : ScanState) : ScanState :=
  match M.date line with
  | some c =>
      let m := setItem st.1 "observation_time" (.str c.g0)
      let m := setItem m "obs_month" (.str c.month)
      let m := setItem m "obs_day" (.int (strToInt c.day))
      let m := setItem m "obs_year" (.int (strToInt c.year))
      let m := setItem m "obs_hour" (.int (strToInt c.hour))
      let m := setItem m "obs_minute" (.int (strToInt c.minute))
      (setItem m "obs_second" (.float (pyFloatDec c.second)), st.2)
  | Option.none =>
      match M.earth line with
      | some c =>
          let m := setItem st.1 "observation_time" (.str c.g0)
          let m := setItem m "obs_month" (.str c.month)
          let m := setItem m "obs_day" (.int (strToInt c.day))
          let m := setItem m "obs_year" (.int (strToInt c.year))
          let m := setItem m "obs_hour" (.int (strToInt c.hour))
          let m := setItem m "obs_minute" (.int (strToInt c.minute))
          let m := setItem m "obs_second"
            (.float (match c.second with | some s => pyFloatDec s | Option.none => 0))
          (setItem m "obs_timezone" (.str (pyUpper c.tz)), st.2)
      | Option.none => st

/-- "Start time: ..." branch: sets the UTC fields unconditionally. -/
def applyUtc (M : Matchers) (line : String) (st : ScanState) : ScanState :=
  match M.utc line with
  | some c => (utcFieldsSet st.1 c, st.2)
  | Option.none => st

/-- "(ORIGIN...)" branch: sets the same UTC fields, but only when
`metadata.get("utc_time")` is still falsy. -/
def applyOrigin (M : Matchers) (line : String) (st : ScanState) : ScanState :=
  match M.origin line with
  | some c =>
      if pyTruthy (st.1.get "utc_time" .none) then st else (utcFieldsSet st.1 c, st.2)
  | Option.none => st

/-- "Station No. ..." branch; the sign multiplier is `+1` exactly for the
captures `"N"` / `"E"`.  `pyFloatDec` is the total stand-in for `float()`
on lat/lon; the fallible form (where `float()` may raise) is
`applyStationE`. -/
def applyStation (M : Matchers) (line : String) (st : ScanState) : ScanState :=
  match M.station line with
  | some c =>
      let m := setItem st.1 "station_id" (.str c.id)
      let m := setItem m "latitude"
        (.float (pyFloatDec c.lat * (if c.ns = "N" then 1 else -1)))
      (setItem m "longitude"
        (.float (pyFloatDec c.lon * (if c.ew = "E" then 1 else -1))), st.2)
  | Option.none => st

/-- "Hypocenter:" branch: stores the stripped line verbatim. -/
def applyHypo (M : Matchers) (line : String) (st : ScanState) : ScanState :=
  if M.hypo line then (setItem st.1 "hypocenter_info" (.str (pyStrip line)), st.2)
  else st

/-- "ML: ..." branch. -/
def applyMag (M : Matchers) (line : String) (st : ScanState) : ScanState :=
  match M.magnitude line with
  | some g => (setItem st.1 "magnitude_info" (.str g), st.2)
  | Option.none => st

/-- "Instr Period = ... sec" branch. -/
def applyInstr (M : Matchers) (line : String) (st : ScanState) : ScanState :=
  match M.instrPeriod line with
  | some q => (setItem st.1 "instrument_period" (.float q), st.2)
  | Option.none => st

/-- "At equally-spaced intervals of ... sec" branch: stores the interval and
its reciprocal, and sets the local `sampling_rate`.  Division is total in
ℚ here; the fallible form (where a zero interval raises) is
`applyIntervalE`. -/
def applyInterval (M : Matchers) (line : String) (st : ScanState) : ScanState :=
  match M.interval line with
  | some q =>
      let sr := 1 / q
      (setItem (setItem st.1 "sampling_rate" (.float sr)) "time_interval" (.float q),
       some sr)
  | Option.none => st

/-- The three "Peak ..." branches. -/
def applyPeaks (M : Matchers) (line : String) (st : ScanState) : ScanState :=
  let st :=
    match M.peakAcc line with
    | some q => (setItem st.1 "peak_acceleration" (.float q), st.2)
    | Option.none => st
  let st :=
    match M.peakVel line with
    | some q => (setItem st.1 "peak_velocity" (.float q), st.2)
    | Option.none => st
  match M.peakDisp line with
  | some q => (setItem st.1 "peak_displacement" (.float q), st.2)
  | Option.none => st

/-- One header line: every fact type is tried independently, in source
order. -/
def applyLine (M : Matchers) (st : ScanState) (line : String) : ScanState :=
  applyPeaks M line (applyInterval M line (applyInstr M line (applyMag M line
    (applyHypo M line (applyStation M line (applyOrigin M line (applyUtc M line
      (applyDate M line (applyStaChan M line (applyChan M line st))))))))))

/-- The header scan: the first 30 lines folded over `applyLine`, starting
from `Metadata.from_filepath` and no sampling rate. -/
def headerScan (M : Matchers) (fp : String) (content : List String) : ScanState :=
  (content.take 30).foldl (applyLine M) (Metadata.from_filepath fp, Option.none)

/-! ## Data-section location (`parser.py` lines 153–174) -/

/-- The four section markers distinguished by the locator's elif chain. -/
inductive MKind where
  | accel : MKind
  | veloc : MKind
  | displ : MKind
  | endData : MKind
deriving DecidableEq

/-- Bool substring containment, modelling Python's `needle in hay`. -/
def containsSub : List Char → List Char → Bool
  | [], nd => nd.isEmpty
  | h :: t, nd => (nd.isPrefixOf (h :: t)) || containsSub t nd

/-- Classify a line by the first marker its lowercased text contains
(the source's elif chain: accel, then veloc, then displ, then end). -/
def markerClass (line : String) : Option MKind :=
  let low := pyLowerL line.toList
  if containsSub low "points of accel data equally spaced".toList then some .accel
  else if containsSub low "points of veloc data equally spaced".toList then some .veloc
  else if containsSub low "points of displ data equally spaced".toList then some .displ
  else if containsSub low "end of data for channel".toList then some .endData
  else Option.none

/-- The four line indices recorded by the locator: the line after each
data-type marker, and the raw index of the end-of-data marker. -/
structure SecInfo where
  accelStart : Option Nat
  velocStart : Option Nat
  displStart : Option Nat
  endLine : Option Nat
deriving DecidableEq

/-- One locator step (last match of each kind wins). -/
def locStep (si : SecInfo) (i : Nat) (line : String) : SecInfo :=
  match markerClass line with
  | some .accel => { si with accelStart := some (i + 1) }
  | some .veloc => { si with velocStart := some (i + 1) }
  | some .displ => { si with displStart := some (i + 1) }
  | some .endData => { si with endLine := some i }
  | Option.none => si

/-- Scan every line of the file for the four markers. -/
def locateSections (content : List String) : SecInfo :=
  (content.enum).foldl (fun si p => locStep si p.1 p.2) ⟨.none, .none, .none, .none⟩

/-- Python truthiness of an optional line number (`None` and `0` falsy). -/
def pyTruthyN : Option Nat → Bool
  | Option.none => false
  | some n => n ≠ 0

/-- `accel_end_line = velocity_start_line - 1 if velocity_start_line else
end_of_data_line`; `none` here makes the subsequent `range()` raise. -/
def accelEndLine (si : SecInfo) : Option Nat :=
  if pyTruthyN si.velocStart then si.velocStart.map (fun v => v - 1) else si.endLine

/-- `velocity_end_line = displ_start_line - 1 if displ_start_line else
end_of_data_line`. -/
def velocEndLine (si : SecInfo) : Option Nat :=
  if pyTruthyN si.displStart then si.displStart.map (fun d => d - 1) else si.endLine

/-- `displ_end_line = end_of_data_line`. -/
def displEndLine (si : SecInfo) : Option Nat :=
  si.endLine

/-! ## Time-axis synthesis and record assembly (`parser.py` 210–222) -/

/-- `np.arange(0, stop, step)` over `ℚ` for a positive step:
`⌈stop/step⌉` evenly spaced values starting at 0. -/
def npArange (stop step : ℚ) : List ℚ :=
  if step ≤ 0 then []
  else (List.range (Int.toNat ⌈stop / step⌉)).map (fun i : Nat => (i : ℚ) * step)

/-- The parsed waveform record: metadata plus the numeric sequences.
`parse_v2_file` always assigns the acceleration array; time, velocity and
displacement stay `None` when not synthesized/found. -/
structure WaveformRecord where
  time : Option (List ℚ)
  acceleration : List ℚ
  velocity : Option (List ℚ)
  displacement : Option (List ℚ)
  metadata : Metadata
deriving DecidableEq

instance : Inhabited WaveformRecord := ⟨⟨Option.none, [], Option.none, Option.none, emptyMetadata⟩⟩

/-- The ways `parse_v2_file` raises: the two `ValueError`s, and the
`TypeError` from `range(accel_start_line, None)` when neither a velocity
marker nor an end-of-data marker bounded the acceleration section. -/
inductive ParseErr where
  | missingTimestamp : ParseErr
  | missingAccel : ParseErr
  | sectionRangeTypeError : ParseErr
deriving DecidableEq

instance {e a : Type} [DecidableEq e] [DecidableEq a] :
    DecidableEq (Except e a) := fun x y =>
  match x, y with
  | .error u, .error v =>
    if h : u = v then isTrue (by rw [h])
    else isFalse (fun hc => h (by injection hc))
  | .ok u, .ok v =>
    if h : u = v then isTrue (by rw [h])
    else isFalse (fun hc => h (by injection hc))
  | .error _, .ok _ => isFalse (fun hc => by injection hc)
  | .ok _, .error _ => isFalse (fun hc => by injection hc)

/-- `parse_v2_file`: header scan over the first 30 lines, timestamp check,
section location, fixed-width decoding of the three quantities, time-axis
synthesis.  `conv` models the `float()` builtin used on data cells (where
its failures ARE caught by the source's try/except).  Header-scan
conversion failures are erased here; `parse_v2_fileE` below models them,
and this error-free form agrees with it on every run where the scan raises
nothing — in particular on every successful parse. -/
def parse_v2_file (M : Matchers) (conv : String → Option ℚ) (fp : String)
    (content : List String) : Except ParseErr WaveformRecord :=
  let st := headerScan M fp content
  let m := st.1
  if !pyTruthy (m.get "utc_time" .none) && !pyTruthy (m.get "observation_time" .none) then
    .error .missingTimestamp
  else
    let si := locateSections content
    match si.accelStart with
    | Option.none => .error .missingAccel
    | some accelStart =>
      match accelEndLine si with
      | Option.none => .error .sectionRangeTypeError
      | some accelEnd =>
        let acceleration := decodeRange conv content accelStart accelEnd
        let velocity :=
          if pyTruthyN si.velocStart && pyTruthyN (velocEndLine si) then
            some (decodeRange conv content (si.velocStart.getD 0)
              ((velocEndLine si).getD 0))
          else Option.none
        let displacement :=
          if pyTruthyN si.displStart && pyTruthyN (displEndLine si) then
            some (decodeRange conv content (si.displStart.getD 0)
              ((displEndLine si).getD 0))
          else Option.none
        let time :=
          match st.2 with
          | some sr =>
              let dt := 1 / sr
              some ((npArange ((acceleration.length : ℚ) * dt) dt).take
                acceleration.length)
          | Option.none => Option.none
        .ok ⟨time, acceleration, velocity, displacement, m⟩

/-! ## The header scan with its uncaught conversion errors

The scan above collapses `re.search` plus `float()` into one `Option ℚ`
per pattern, which erases the fact that the header loop has no
`try`/`except`: `float()` on a matched capture of `[\d\.]+` / `[\d\.\-]+`
(station lat/lon, instrument period, interval, the three peaks) raises an
uncaught `ValueError` on captures such as `"."` or `"-"`, and
`1.0 / interval` raises `ZeroDivisionError` when the captured interval is
zero (`parser.py` 106–148).  The model below keeps those captures as raw
text and applies a fallible conversion, so the scan itself can raise. -/

/-- The uncaught exceptions of the header scan: `float()`'s `ValueError`
on a matched but unconvertible capture, and the `ZeroDivisionError` from
`1.0 / interval` (`parser.py` 131) on a zero interval. -/
inductive PyExc where
  | valueError : PyExc
  | zeroDivision : PyExc
deriving DecidableEq

/-- The per-line `re.search` results, uncollapsed: patterns whose captures
feed `float()` return the raw captured text, and the conversion — with its
possible `ValueError` — is applied by the scan itself. -/
structure MatchersR where
  chan : String → Option String
  staChan : String → Option String
  date : String → Option DateCap
  earth : String → Option EarthCap
  utc : String → Option UtcCap
  origin : String → Option UtcCap
  station : String → Option StationCap
  hypo : String → Bool
  magnitude : String → Option String
  instrPeriod : String → Option String
  interval : String → Option String
  peakAcc : String → Option String
  peakVel : String → Option String
  peakDisp : String → Option String

/-- The collapse of an uncollapsed matcher back to the error-free form:
match and conversion composed, a failed conversion indistinguishable from
no match.  The shared (never-failing) fields are copied unchanged. -/
def MatchersR.total (M : MatchersR) (conv : String → Option ℚ) : Matchers where
  chan := M.chan
  staChan := M.staChan
  date := M.date
  earth := M.earth
  utc := M.utc
  origin := M.origin
  station := M.station
  hypo := M.hypo
  magnitude := M.magnitude
  instrPeriod := fun l => (M.instrPeriod l).bind conv
  interval := fun l => (M.interval l).bind conv
  peakAcc := fun l => (M.peakAcc l).bind conv
  peakVel := fun l => (M.peakVel l).bind conv
  peakDisp := fun l => (M.peakDisp l).bind conv

/-- One store of `float(capture)` under `field`: no match stores nothing,
a match with an unconvertible capture raises `ValueError` (used for the
instrument period and the three peaks). -/
def peakStep (g : Option String) (conv : String → Option ℚ) (field : String)
    (st : ScanState) : Except PyExc ScanState :=
  match g with
  | some t =>
    match conv t with
    | some q => .ok (setItem st.1 field (.float q), st.2)
    | Option.none => .error .valueError
  | Option.none => .ok st

/-- "Station No. ..." branch with the real `float()` on the lat/lon
captures (`parser.py` 112–113): either conversion failing raises
`ValueError`. -/
def applyStationE (M : MatchersR) (conv : String → Option ℚ) (line : String)
    (st : ScanState) : Except PyExc ScanState :=
  match M.station line with
  | some c =>
    match conv c.lat with
    | some la =>
      match conv c.lon with
      | some lo =>
        let m := setItem st.1 "station_id" (.str c.id)
        let m := setItem m "latitude"
          (.float (la * (if c.ns = "N" then 1 else -1)))
        .ok (setItem m "longitude"
          (.float (lo * (if c.ew = "E" then 1 else -1))), st.2)
      | Option.none => .error .valueError
    | Option.none => .error .valueError
  | Option.none => .ok st

/-- Interval branch with the real `float()` and the real division
(`parser.py` 130–131): an unconvertible capture raises `ValueError`, a
zero interval raises `ZeroDivisionError`. -/
def applyIntervalE (M : MatchersR) (conv : String → Option ℚ) (line : String)
    (st : ScanState) : Except PyExc ScanState :=
  match M.interval line with
  | some t =>
    match conv t with
    | some q =>
      if q = 0 then .error .zeroDivision
      else
        let sr := 1 / q
        .ok (setItem (setItem st.1 "sampling_rate" (.float sr))
          "time_interval" (.float q), some sr)
    | Option.none => .error .valueError
  | Option.none => .ok st

/-- The three "Peak ..." branches, each fallible, in source order. -/
def applyPeaksE (M : MatchersR) (conv : String → Option ℚ) (line : String)
    (st : ScanState) : Except PyExc ScanState :=
  (peakStep (M.peakAcc line) conv "peak_acceleration" st) >>= fun st =>
    (peakStep (M.peakVel line) conv "peak_velocity" st) >>= fun st =>
      peakStep (M.peakDisp line) conv "peak_displacement" st

/-- One header line with its uncaught conversion errors: the timestamp
branches (which never raise) run first in source order via the shared
`apply*` functions, then the fallible station / period / interval / peak
branches; the first failing conversion aborts the line (and the scan). -/
def applyLineE (M : MatchersR) (conv : String → Option ℚ) (st : ScanState)
    (line : String) : Except PyExc ScanState :=
  (applyStationE M conv line
      (applyOrigin (M.total conv) line (applyUtc (M.total conv) line
        (applyDate (M.total conv) line (applyStaChan (M.total conv) line
          (applyChan (M.total conv) line st)))))) >>= fun st =>
    (peakStep (M.instrPeriod line) conv "instrument_period"
      (applyMag (M.total conv) line (applyHypo (M.total conv) line st))) >>=
        fun st =>
      (applyIntervalE M conv line st) >>= fun st =>
        applyPeaksE M conv line st

/-- The header scan over the first 30 lines, propagating the first
uncaught exception. -/
def headerScanE (M : MatchersR) (conv : String → Option ℚ) (fp : String)
    (content : List String) : Except PyExc ScanState :=
  (content.take 30).foldlM (applyLineE M conv)
    (Metadata.from_filepath fp, Option.none)

/-- The ways `parse_v2_file` can fail: an uncaught exception escaping the
header scan, the two explicit `ValueError`s, and the `TypeError` from
`range(accel_start_line, None)`. -/
inductive ParseErrE where
  | headerExc : PyExc → ParseErrE
  | missingTimestamp : ParseErrE
  | missingAccel : ParseErrE
  | sectionRangeTypeError : ParseErrE
deriving DecidableEq

/-- `parse_v2_file` over the fallible header scan: identical to
`parse_v2_file` after the scan, but an exception raised inside the scan
escapes before the timestamp check is ever reached. -/
def parse_v2_fileE (M : MatchersR) (conv : String → Option ℚ) (fp : String)
    (content : List String) : Except ParseErrE WaveformRecord :=
  match headerScanE M conv fp content with
  | .error e => .error (.headerExc e)
  | .ok st =>
    let m := st.1
    if !pyTruthy (m.get "utc_time" .none) && !pyTruthy (m.get "observation_time" .none) then
      .error .missingTimestamp
    else
      let si := locateSections content
      match si.accelStart with
      | Option.none => .error .missingAccel
      | some accelStart =>
        match accelEndLine si with
        | Option.none => .error .sectionRangeTypeError
        | some accelEnd =>
          let acceleration := decodeRange conv content accelStart accelEnd
          let velocity :=
            if pyTruthyN si.velocStart && pyTruthyN (velocEndLine si) then
              some (decodeRange conv content (si.velocStart.getD 0)
                ((velocEndLine si).getD 0))
            else Option.none
          let displacement :=
            if pyTruthyN si.displStart && pyTruthyN (displEndLine si) then
              some (decodeRange conv content (si.displStart.getD 0)
                ((displEndLine si).getD 0))
            else Option.none
          let time :=
            match st.2 with
            | some sr =>
                let dt := 1 / sr
                some ((npArange ((acceleration.length : ℚ) * dt) dt).take
                  acceleration.length)
            | Option.none => Option.none
          .ok ⟨time, acceleration, velocity, displacement, m⟩

/-! ## Multi-channel detection (`converter.py` lines 429–468) -/

/-- Python `str.count` (non-overlapping, left-to-right), via fuel-indexed
structural recursion; `countOccurrences` always supplies enough fuel. -/
def countOccAux : Nat → List Char → List Char → Nat
  | 0, _, _ => 0
  | _ + 1, [], nd => if nd.isEmpty then 1 else 0
  | fuel + 1, h :: t, nd =>
    if nd.isPrefixOf (h :: t) then 1 + countOccAux fuel ((h :: t).drop nd.length) nd
    else countOccAux fuel t nd

/-- Python `hay.count(nd)`. -/
def countOccurrences (hay nd : List Char) : Nat :=
  countOccAux (hay.length + 1) hay nd

/-- `has_multiple_channels`: case-insensitive occurrence count of
"corrected accelerogram", multi-channel iff the count exceeds 2. -/
def has_multiple_channels (content : String) : Bool :=
  2 < countOccurrences (pyLowerL content.toList) "corrected accelerogram".toList

/-! ## Channel splitting (`converter.py` lines 470–560)

The pattern `^Corrected accelerogram.*?Chan\s+(\d+):` with
`IGNORECASE | MULTILINE` is implemented directly.  `.` does not match a
newline; `.*?` is lazy; after `Chan`, since `\s` and `\d` are disjoint
and `:` is neither, the only viable continuation is the maximal
whitespace run followed by the maximal digit run followed by `:`. -/

/-- Does `hay` start with the (lowercase) pattern literal `nd`, matching
case-insensitively (IGNORECASE on ASCII)? -/
def startsWithCI : List Char → List Char → Bool
  | [], _ => true
  | _ :: _, [] => false
  | n :: ns, h :: hs => (h.toLower == n) && startsWithCI ns hs

/-- After the four characters of `Chan`: the greedy `\s+` run. -/
def chanWs (l : List Char) : List Char :=
  (l.drop 4).takeWhile (fun c => isPySpace c)

/-- After the whitespace run: the greedy `\d+` run. -/
def chanDs (l : List Char) : List Char :=
  ((l.drop 4).drop (chanWs l).length).takeWhile Char.isDigit

/-- What remains after the digit run (must start with `:`). -/
def chanRest (l : List Char) : List Char :=
  ((l.drop 4).drop (chanWs l).length).drop (chanDs l).length

/-- Try to match `Chan\s+(\d+):` at the head of `l`; returns the consumed
length and the captured channel number.  Since `\s` and `\d` are disjoint
and `:` is neither, the only viable backtracking-free reading is the
maximal whitespace run, then the maximal digit run, then `:`. -/
def matchChanAt (l : List Char) : Option (Nat × Nat) :=
  if startsWithCI "chan".toList l then
    if 0 < (chanWs l).length && 0 < (chanDs l).length &&
        (chanRest l).head? == some ':' then
      some (4 + (chanWs l).length + (chanDs l).length + 1, digitsVal (chanDs l))
    else Option.none
  else Option.none

/-- The lazy `.*?Chan\s+(\d+):` tail: the shortest newline-free gap after
which `Chan\s+(\d+):` matches; returns total consumed length and channel. -/
def lazyScan : List Char → Option (Nat × Nat)
  | [] => Option.none
  | c :: rest =>
    match matchChanAt (c :: rest) with
    | some r => some r
    | Option.none =>
      if c = '\n' then Option.none
      else (lazyScan rest).map (fun r => (r.1 + 1, r.2))

/-- The header-pattern literal, lowercased. -/
def caNeedle : List Char := "corrected accelerogram".toList

/-- Match the whole header pattern at the head of `l` (the `^` anchor is
checked by the caller); returns consumed length and channel number. -/
def matchHeaderAfterAnchor (l : List Char) : Option (Nat × Nat) :=
  if startsWithCI caNeedle l then
    (lazyScan (l.drop caNeedle.length)).map (fun r => (caNeedle.length + r.1, r.2))
  else Option.none

/-- The `finditer` scan: try the pattern at every line-start position from
left to right, emitting `(start, end, channel)` and resuming after each
match's end; fuel-indexed (each step consumes at least one character). -/
def goFind : Nat → Bool → List Char → Nat → List (Nat × Nat × Nat)
  | 0, _, _, _ => []
  | _ + 1, _, [], _ => []
  | fuel + 1, atStart, c :: rest, off =>
    match (if atStart then matchHeaderAfterAnchor (c :: rest) else Option.none) with
    | some r =>
        (off, off + r.1, r.2) ::
          goFind fuel (((c :: rest).take r.1).getLast? == some '\n')
            ((c :: rest).drop r.1) (off + r.1)
    | Option.none => goFind fuel (c == '\n') rest (off + 1)

/-- `list(header_pattern.finditer(file_content))`, as
`(start, end, channel)` triples. -/
def finditer (cl : List Char) : List (Nat × Nat × Nat) :=
  goFind (cl.length + 1) true cl 0

/-- `header_pattern.search(text)`: the leftmost match. -/
def searchHeader (cl : List Char) : Option (Nat × Nat × Nat) :=
  (finditer cl).head?

/-- The loop body of `split_v2_file_by_channel` for match index `i`: the
block runs from match `i`'s start to the next match's start (or end of
file), and is emitted with the channel number re-extracted by searching the
pattern inside the block itself. -/
def splitBody (cl : List Char) (ms : List (Nat × Nat × Nat)) (i : Nat) :
    Option (String × Nat) :=
  match ms.get? i with
  | some m =>
    let bend :=
      match ms.get? (i + 1) with
      | some m' => m'.1
      | Option.none => cl.length
    let block := (cl.drop m.1).take (bend - m.1)
    match searchHeader block with
    | some r => some (String.mk block, r.2.2)
    | Option.none => Option.none
  | Option.none => Option.none

/-- `split_v2_file_by_channel` (the pure core): empty/whitespace content
yields no blocks; otherwise each `finditer` match opens a block (see
`splitBody`).  Returns the `(block text, channel number)` pairs written
out. -/
def split_v2_file_by_channel (content : String) : List (String × Nat) :=
  let cl := content.toList
  if cl.all (fun c => isPySpace c) then []
  else (List.range (finditer cl).length).filterMap (splitBody cl (finditer cl))

/-- The end of block `i`: the next match's start, or the end of the file
for the last match (statement vocabulary). -/
def blockEnd (cl : List Char) (i : Nat) : Nat :=
  match (finditer cl).get? (i + 1) with
  | some m' => m'.1
  | Option.none => cl.length

/-! ## Statement vocabulary for the header-scan claims -/

/-- The seven UTC-time fields of a metadata record, as one tuple. -/
def utcView (m : Metadata) :
    PyVal × PyVal × PyVal × PyVal × PyVal × PyVal × PyVal :=
  (m.utc_time, m.utc_month, m.utc_day, m.utc_year, m.utc_hour, m.utc_minute,
   m.utc_second)

/-- The UTC-field values the scan computes from a Start-time or ORIGIN
capture (shared conversion code of the two branches). -/
def utcTupleOf (c : UtcCap) :
    PyVal × PyVal × PyVal × PyVal × PyVal × PyVal × PyVal :=
  (.str c.g0, .int (strToInt c.month), .int (strToInt c.day),
   .int (normalizeYear c.year), .int (strToInt c.hour), .int (strToInt c.minute),
   .float (match c.second with | some s => pyFloatDec s | Option.none => 0))

/-- The capture of the last line (in scan order) whose Start-time search
hits. -/
def lastUtcCap (M : Matchers) : List String → Option UtcCap
  | [] => Option.none
  | l :: rest =>
    match lastUtcCap M rest with
    | some c => some c
    | Option.none => M.utc l

/-- The capture of the first line whose ORIGIN search hits. -/
def firstOriginCap (M : Matchers) : List String → Option UtcCap
  | [] => Option.none
  | l :: rest =>
    match M.origin l with
    | some c => some c
    | Option.none => firstOriginCap M rest

/-- The interval captured on the last line (in scan order) whose
equally-spaced-intervals search hits. -/
def lastIntervalVal (M : Matchers) : List String → Option ℚ
  | [] => Option.none
  | l :: rest =>
    match lastIntervalVal M rest with
    | some q => some q
    | Option.none => M.interval l

/-- All four timestamp patterns fail on this line. -/
def noTimestampMatch (M : Matchers) (l : String) : Prop :=
  M.date l = Option.none ∧ M.earth l = Option.none ∧
  M.utc l = Option.none ∧ M.origin l = Option.none

instance (M : Matchers) (l : String) : Decidable (noTimestampMatch M l) := by
  unfold noTimestampMatch
  infer_instance

/-- The whole-match captures of the four timestamp patterns are nonempty
strings wherever they match — true of the concrete regexes, whose every
alternative contains mandatory literal text. -/
def capsNonempty (M : Matchers) : Prop :=
  (∀ l c, M.date l = some c → c.g0 ≠ "") ∧
  (∀ l c, M.earth l = some c → c.g0 ≠ "") ∧
  (∀ l c, M.utc l = some c → c.g0 ≠ "") ∧
  (∀ l c, M.origin l = some c → c.g0 ≠ "")


/-- The index of the last line (in scan order) classified as the given
marker kind, over an indexed line list. -/
def lastMarkerIdx (kind : MKind) : List (Nat × String) → Option Nat
  | [] => Option.none
  | p :: rest =>
    match lastMarkerIdx kind rest with
    | some i => some i
    | Option.none =>
        if markerClass p.2 = some kind then some p.1 else Option.none

/-! ## Concrete fixtures for witness evaluation -/

/-- A concrete Start-time capture. -/
def utcCapA : UtcCap :=
  ⟨"Start time: 1/17/95, 12:30:55.0 UTC", "1", "17", "95", "12", "30", some "55.0"⟩

/-- A concrete ORIGIN capture. -/
def originCapA : UtcCap :=
  ⟨"(ORIGIN(CIT): 1/17/94, 12:30 GMT)", "1", "17", "94", "12", "30", Option.none⟩

/-- A concrete record-of capture. -/
def dateCapA : DateCap :=
  ⟨"Rcrd of Tue Jan 17, 1995 12:30: 55.0", "Jan", "17", "1995", "12", "30", "55.0"⟩

/-- Concrete matchers keyed on sentinel line texts, instantiating the
parametric header-scan theorems on concrete inputs. -/
def testMatchers : Matchers where
  chan := fun l => if l = "CHANLINE" then some "3" else Option.none
  staChan := fun _ => Option.none
  date := fun l => if l = "RCRD" then some dateCapA else Option.none
  earth := fun _ => Option.none
  utc := fun l => if l = "UTC1" then some utcCapA else Option.none
  origin := fun l => if l = "ORIG" then some originCapA else Option.none
  station := fun _ => Option.none
  hypo := fun _ => false
  magnitude := fun _ => Option.none
  instrPeriod := fun _ => Option.none
  interval := fun l => if l = "INT" then some (1 / 100) else Option.none
  peakAcc := fun _ => Option.none
  peakVel := fun _ => Option.none
  peakDisp := fun _ => Option.none

/-- A minimal well-formed channel text for `testMatchers`. -/
def demoContent : List String :=
  ["RCRD", "INT", "points of accel data equally spaced", "       1.0",
   "end of data for channel"]

/-- The record parsed from `demoContent`. -/
def demoRecord : WaveformRecord :=
  ((parse_v2_file testMatchers floatModel "f.V2" demoContent).toOption).getD default

/-- A channel text whose acceleration section has no closing marker. -/
def cexContent : List String :=
  ["RCRD", "points of accel data equally spaced", "       1.0"]

/-- A 71-line content with an accel marker at line 10, a veloc marker at
line 40 and the end-of-data marker at line 70. -/
def markerContent : List String :=
  (List.range 71).map (fun i =>
    if i = 10 then "8000 points of accel data equally spaced"
    else if i = 40 then "8000 points of veloc data equally spaced"
    else if i = 70 then "End of data for channel  3"
    else "")

/-- Concrete uncollapsed matchers keyed on sentinel line texts.  The
`"Peak acceleration = -"` line captures `"-"` exactly as the `[\d\.\-]+`
class does on that real line, and `float("-")` raises; the `"INT0"`
sentinel captures a zero interval. -/
def testMatchersR : MatchersR where
  chan := fun l => if l = "CHANLINE" then some "3" else Option.none
  staChan := fun _ => Option.none
  date := fun l => if l = "RCRD" then some dateCapA else Option.none
  earth := fun _ => Option.none
  utc := fun l => if l = "UTC1" then some utcCapA else Option.none
  origin := fun l => if l = "ORIG" then some originCapA else Option.none
  station := fun _ => Option.none
  hypo := fun _ => false
  magnitude := fun _ => Option.none
  instrPeriod := fun _ => Option.none
  interval := fun l =>
    if l = "INT" then some "0.01"
    else if l = "INT0" then some "0" else Option.none
  peakAcc := fun l =>
    if l = "Peak acceleration = -" then some "-" else Option.none
  peakVel := fun _ => Option.none
  peakDisp := fun _ => Option.none

/-- A channel text with no timestamp line whatsoever, but with a peak line
whose capture breaks `float()` — the scan raises before the timestamp
check is reached. -/
def cexNoTsBadPeak : List String :=
  ["Peak acceleration = -", "points of accel data equally spaced",
   "       1.0", "end of data for channel"]

/-- Three-channel content with a preamble line before the first header:
channel headers for channels 1, 3 and 5. -/
def demoSplitContent : String :=
  "preamble\nCorrected accelerogram Chan 1:\nA\nCORRECTED ACCELEROGRAM  Chan  3:\nB\ncorrected accelerogram data Chan 5:\nC\n"

/-! ## Simp lemmas: `__setitem__` under each known field name -/

@[simp] theorem setItem_channel_number (m : Metadata) (v : PyVal) :
    setItem m "channel_number" v = { m with channel_number := v } := rfl

@[simp] theorem setItem_station_channel_number (m : Metadata) (v : PyVal) :
    setItem m "station_channel_number" v = { m with station_channel_number := v } := rfl

@[simp] theorem setItem_observation_time (m : Metadata) (v : PyVal) :
    setItem m "observation_time" v = { m with observation_time := v } := rfl

@[simp] theorem setItem_obs_month (m : Metadata) (v : PyVal) :
    setItem m "obs_month" v = { m with obs_month := v } := rfl

@[simp] theorem setItem_obs_day (m : Metadata) (v : PyVal) :
    setItem m "obs_day" v = { m with obs_day := v } := rfl

@[simp] theorem setItem_obs_year (m : Metadata) (v : PyVal) :
    setItem m "obs_year" v = { m with obs_year := v } := rfl

@[simp] theorem setItem_obs_hour (m : Metadata) (v : PyVal) :
    setItem m "obs_hour" v = { m with obs_hour := v } := rfl

@[simp] theorem setItem_obs_minute (m : Metadata) (v : PyVal) :
    setItem m "obs_minute" v = { m with obs_minute := v } := rfl

@[simp] theorem setItem_obs_second (m : Metadata) (v : PyVal) :
    setItem m "obs_second" v = { m with obs_second := v } := rfl

@[simp] theorem setItem_obs_timezone (m : Metadata) (v : PyVal) :
    setItem m "obs_timezone" v = { m with obs_timezone := v } := rfl

@[simp] theorem setItem_utc_time (m : Metadata) (v : PyVal) :
    setItem m "utc_time" v = { m with utc_time := v } := rfl

@[simp] theorem setItem_utc_month (m : Metadata) (v : PyVal) :
    setItem m "utc_month" v = { m with utc_month := v } := rfl

@[simp] theorem setItem_utc_day (m : Metadata) (v : PyVal) :
    setItem m "utc_day" v = { m with utc_day := v } := rfl

@[simp] theorem setItem_utc_year (m : Metadata) (v : PyVal) :
    setItem m "utc_year" v = { m with utc_year := v } := rfl

@[simp] theorem setItem_utc_hour (m : Metadata) (v : PyVal) :
    setItem m "utc_hour" v = { m with utc_hour := v } := rfl

@[simp] theorem setItem_utc_minute (m : Metadata) (v : PyVal) :
    setItem m "utc_minute" v = { m with utc_minute := v } := rfl

@[simp] theorem setItem_utc_second (m : Metadata) (v : PyVal) :
    setItem m "utc_second" v = { m with utc_second := v } := rfl

@[simp] theorem setItem_station_id (m : Metadata) (v : PyVal) :
    setItem m "station_id" v = { m with station_id := v } := rfl

@[simp] theorem setItem_latitude (m : Metadata) (v : PyVal) :
    setItem m "latitude" v = { m with latitude := v } := rfl

@[simp] theorem setItem_longitude (m : Metadata) (v : PyVal) :
    setItem m "longitude" v = { m with longitude := v } := rfl

@[simp] theorem setItem_hypocenter_info (m : Metadata) (v : PyVal) :
    setItem m "hypocenter_info" v = { m with hypocenter_info := v } := rfl

@[simp] theorem setItem_magnitude_info (m : Metadata) (v : PyVal) :
    setItem m "magnitude_info" v = { m with magnitude_info := v } := rfl

@[simp] theorem setItem_instrument_period (m : Metadata) (v : PyVal) :
    setItem m "instrument_period" v = { m with instrument_period := v } := rfl

@[simp] theorem setItem_sampling_rate (m : Metadata) (v : PyVal) :
    setItem m "sampling_rate" v = { m with sampling_rate := v } := rfl

@[simp] theorem setItem_time_interval (m : Metadata) (v : PyVal) :
    setItem m "time_interval" v = { m with time_interval := v } := rfl

@[simp] theorem setItem_peak_acceleration (m : Metadata) (v : PyVal) :
    setItem m "peak_acceleration" v = { m with peak_acceleration := v } := rfl

@[simp] theorem setItem_peak_velocity (m : Metadata) (v : PyVal) :
    setItem m "peak_velocity" v = { m with peak_velocity := v } := rfl

@[simp] theorem setItem_peak_displacement (m : Metadata) (v : PyVal) :
    setItem m "peak_displacement" v = { m with peak_displacement := v } := rfl

/-! ## Frame lemmas: which header branches touch which fields -/

@[simp] theorem uv_applyChan (M : Matchers) (line : String) (st : ScanState) :
    utcView (applyChan M line st).1 = utcView st.1 := by
  simp only [applyChan]
  cases h : M.chan line <;> simp [utcView]

@[simp] theorem ob_applyChan (M : Matchers) (line : String) (st : ScanState) :
    (applyChan M line st).1.observation_time = st.1.observation_time := by
  simp only [applyChan]
  cases h : M.chan line <;> simp

@[simp] theorem sr_applyChan (M : Matchers) (line : String) (st : ScanState) :
    (applyChan M line st).2 = st.2 := by
  simp only [applyChan]
  cases h : M.chan line <;> simp

@[simp] theorem uv_applyStaChan (M : Matchers) (line : String) (st : ScanState) :
    utcView (applyStaChan M line st).1 = utcView st.1 := by
  simp only [applyStaChan]
  cases h : M.staChan line <;> simp [utcView]

@[simp] theorem ob_applyStaChan (M : Matchers) (line : String) (st : ScanState) :
    (applyStaChan M line st).1.observation_time = st.1.observation_time := by
  simp only [applyStaChan]
  cases h : M.staChan line <;> simp

@[simp] theorem sr_applyStaChan (M : Matchers) (line : String) (st : ScanState) :
    (applyStaChan M line st).2 = st.2 := by
  simp only [applyStaChan]
  cases h : M.staChan line <;> simp

@[simp] theorem uv_applyStation (M : Matchers) (line : String) (st : ScanState) :
    utcView (applyStation M line st).1 = utcView st.1 := by
  simp only [applyStation]
  cases h : M.station line <;> simp [utcView]

@[simp] theorem ob_applyStation (M : Matchers) (line : String) (st : ScanState) :
    (applyStation M line st).1.observation_time = st.1.observation_time := by
  simp only [applyStation]
  cases h : M.station line <;> simp

@[simp] theorem sr_applyStation (M : Matchers) (line : String) (st : ScanState) :
    (applyStation M line st).2 = st.2 := by
  simp only [applyStation]
  cases h : M.station line <;> simp

@[simp] theorem uv_applyMag (M : Matchers) (line : String) (st : ScanState) :
    utcView (applyMag M line st).1 = utcView st.1 := by
  simp only [applyMag]
  cases h : M.magnitude line <;> simp [utcView]

@[simp] theorem ob_applyMag (M : Matchers) (line : String) (st : ScanState) :
    (applyMag M line st).1.observation_time = st.1.observation_time := by
  simp only [applyMag]
  cases h : M.magnitude line <;> simp

@[simp] theorem sr_applyMag (M : Matchers) (line : String) (st : ScanState) :
    (applyMag M line st).2 = st.2 := by
  simp only [applyMag]
  cases h : M.magnitude line <;> simp

@[simp] theorem uv_applyInstr (M : Matchers) (line : String) (st : ScanState) :
    utcView (applyInstr M line st).1 = utcView st.1 := by
  simp only [applyInstr]
  cases h : M.instrPeriod line <;> simp [utcView]

@[simp] theorem ob_applyInstr (M : Matchers) (line : String) (st : ScanState) :
    (applyInstr M line st).1.observation_time = st.1.observation_time := by
  simp only [applyInstr]
  cases h : M.instrPeriod line <;> simp

@[simp] theorem sr_applyInstr (M : Matchers) (line : String) (st : ScanState) :
    (applyInstr M line st).2 = st.2 := by
  simp only [applyInstr]
  cases h : M.instrPeriod line <;> simp

@[simp] theorem uv_applyHypo (M : Matchers) (line : String) (st : ScanState) :
    utcView (applyHypo M line st).1 = utcView st.1 := by
  simp only [applyHypo]
  split <;> simp [utcView]

@[simp] theorem ob_applyHypo (M : Matchers) (line : String) (st : ScanState) :
    (applyHypo M line st).1.observation_time = st.1.observation_time := by
  simp only [applyHypo]
  split <;> simp

@[simp] theorem sr_applyHypo (M : Matchers) (line : String) (st : ScanState) :
    (applyHypo M line st).2 = st.2 := by
  simp only [applyHypo]
  split <;> simp

@[simp] theorem uv_applyPeaks (M : Matchers) (line : String) (st : ScanState) :
    utcView (applyPeaks M line st).1 = utcView st.1 := by
  simp only [applyPeaks]
  cases h1 : M.peakAcc line <;> cases h2 : M.peakVel line <;>
    cases h3 : M.peakDisp line <;> simp [utcView]

@[simp] theorem ob_applyPeaks (M : Matchers) (line : String) (st : ScanState) :
    (applyPeaks M line st).1.observation_time = st.1.observation_time := by
  simp only [applyPeaks]
  cases h1 : M.peakAcc line <;> cases h2 : M.peakVel line <;>
    cases h3 : M.peakDisp line <;> simp

@[simp] theorem sr_applyPeaks (M : Matchers) (line : String) (st : ScanState) :
    (applyPeaks M line st).2 = st.2 := by
  simp only [applyPeaks]
  cases h1 : M.peakAcc line <;> cases h2 : M.peakVel line <;>
    cases h3 : M.peakDisp line <;> simp

@[simp] theorem uv_applyDate (M : Matchers) (line : String) (st : ScanState) :
    utcView (applyDate M line st).1 = utcView st.1 := by
  simp only [applyDate]
  cases h1 : M.date line <;> cases h2 : M.earth line <;> simp [utcView]

@[simp] theorem sr_applyDate (M : Matchers) (line : String) (st : ScanState) :
    (applyDate M line st).2 = st.2 := by
  simp only [applyDate]
  cases h1 : M.date line <;> cases h2 : M.earth line <;> simp

theorem ob_applyDate (M : Matchers) (line : String) (st : ScanState) :
    (applyDate M line st).1.observation_time =
      (match M.date line with
       | some c => .str c.g0
       | Option.none =>
         match M.earth line with
         | some c => .str c.g0
         | Option.none => st.1.observation_time) := by
  simp only [applyDate]
  cases h1 : M.date line <;> cases h2 : M.earth line <;> simp

@[simp] theorem uv_applyInterval (M : Matchers) (line : String) (st : ScanState) :
    utcView (applyInterval M line st).1 = utcView st.1 := by
  simp only [applyInterval]
  cases h : M.interval line <;> simp [utcView]

@[simp] theorem ob_applyInterval (M : Matchers) (line : String) (st : ScanState) :
    (applyInterval M line st).1.observation_time = st.1.observation_time := by
  simp only [applyInterval]
  cases h : M.interval line <;> simp

theorem sr_applyInterval (M : Matchers) (line : String) (st : ScanState) :
    (applyInterval M line st).2 =
      (match M.interval line with
       | some q => some (1 / q)
       | Option.none => st.2) := by
  simp only [applyInterval]
  cases h : M.interval line <;> simp

theorem utcView_utcFieldsSet (m : Metadata) (c : UtcCap) :
    utcView (utcFieldsSet m c) = utcTupleOf c := by
  simp [utcFieldsSet, utcView, utcTupleOf]

theorem utcFieldsSet_utc_time (m : Metadata) (c : UtcCap) :
    (utcFieldsSet m c).utc_time = .str c.g0 := by
  simp [utcFieldsSet]

@[simp] theorem ob_utcFieldsSet (m : Metadata) (c : UtcCap) :
    (utcFieldsSet m c).observation_time = m.observation_time := by
  simp [utcFieldsSet]

theorem applyUtc_some {M : Matchers} {line : String} (st : ScanState) {c : UtcCap}
    (h : M.utc line = some c) :
    applyUtc M line st = (utcFieldsSet st.1 c, st.2) := by
  simp [applyUtc, h]

theorem applyUtc_none {M : Matchers} {line : String} (st : ScanState)
    (h : M.utc line = Option.none) :
    applyUtc M line st = st := by
  simp [applyUtc, h]

theorem applyOrigin_some {M : Matchers} {line : String} (st : ScanState) {c : UtcCap}
    (h : M.origin line = some c) :
    applyOrigin M line st =
      (if pyTruthy (st.1.get "utc_time" .none) then st
       else (utcFieldsSet st.1 c, st.2)) := by
  simp [applyOrigin, h]

theorem applyOrigin_none {M : Matchers} {line : String} (st : ScanState)
    (h : M.origin line = Option.none) :
    applyOrigin M line st = st := by
  simp [applyOrigin, h]

theorem get_utc_time (m : Metadata) : m.get "utc_time" .none = m.utc_time := by
  unfold Metadata.get
  rw [if_pos (by decide)]
  have hg : getKnownField m "utc_time" = m.utc_time := rfl
  rw [hg]
  split <;> simp_all

theorem get_observation_time (m : Metadata) :
    m.get "observation_time" .none = m.observation_time := by
  unfold Metadata.get
  rw [if_pos (by decide)]
  have hg : getKnownField m "observation_time" = m.observation_time := rfl
  rw [hg]
  split <;> simp_all

@[simp] theorem ob_applyUtc (M : Matchers) (line : String) (st : ScanState) :
    (applyUtc M line st).1.observation_time = st.1.observation_time := by
  simp only [applyUtc]
  cases h : M.utc line <;> simp

@[simp] theorem sr_applyUtc (M : Matchers) (line : String) (st : ScanState) :
    (applyUtc M line st).2 = st.2 := by
  simp only [applyUtc]
  cases h : M.utc line <;> simp

@[simp] theorem ob_applyOrigin (M : Matchers) (line : String) (st : ScanState) :
    (applyOrigin M line st).1.observation_time = st.1.observation_time := by
  simp only [applyOrigin]
  cases h : M.origin line <;> simp
  split <;> simp

@[simp] theorem sr_applyOrigin (M : Matchers) (line : String) (st : ScanState) :
    (applyOrigin M line st).2 = st.2 := by
  simp only [applyOrigin]
  cases h : M.origin line <;> simp
  split <;> simp

theorem applyLine_uv (M : Matchers) (st : ScanState) (line : String)
    (hU : ∀ c, M.utc line = some c → c.g0 ≠ "") :
    utcView (applyLine M st line).1 =
      (match M.utc line with
       | some c => utcTupleOf c
       | Option.none =>
         match M.origin line with
         | some c =>
             if pyTruthy st.1.utc_time then utcView st.1 else utcTupleOf c
         | Option.none => utcView st.1) := by
  unfold applyLine
  simp only [uv_applyPeaks, uv_applyInterval, uv_applyInstr, uv_applyMag,
    uv_applyHypo, uv_applyStation]
  cases hu : M.utc line with
  | some c =>
      rw [applyUtc_some _ hu]
      have hg : c.g0 ≠ "" := hU c hu
      cases ho : M.origin line with
      | some c' =>
          rw [applyOrigin_some _ ho]
          simp only [get_utc_time]
          rw [show ((utcFieldsSet (applyDate M line (applyStaChan M line
              (applyChan M line st))).1 c, (applyDate M line (applyStaChan M line
              (applyChan M line st))).2)).1.utc_time = PyVal.str c.g0 from
            utcFieldsSet_utc_time _ _]
          rw [if_pos (by simp [pyTruthy, hg])]
          exact utcView_utcFieldsSet _ _
      | none =>
          rw [applyOrigin_none _ ho]
          exact utcView_utcFieldsSet _ _
  | none =>
      rw [applyUtc_none _ hu]
      have hD : utcView (applyDate M line (applyStaChan M line
          (applyChan M line st))).1 = utcView st.1 := by simp
      have hDt : (applyDate M line (applyStaChan M line
          (applyChan M line st))).1.utc_time = st.1.utc_time :=
        congrArg (fun t => t.1) hD
      cases ho : M.origin line with
      | some c' =>
          rw [applyOrigin_some _ ho]
          simp only [get_utc_time, hDt]
          split <;> simp [hD, utcView_utcFieldsSet]
      | none =>
          rw [applyOrigin_none _ ho]
          exact hD

theorem applyLine_utc_time (M : Matchers) (st : ScanState) (line : String)
    (hU : ∀ c, M.utc line = some c → c.g0 ≠ "") :
    (applyLine M st line).1.utc_time =
      (match M.utc line with
       | some c => PyVal.str c.g0
       | Option.none =>
         match M.origin line with
         | some c =>
             if pyTruthy st.1.utc_time then st.1.utc_time else PyVal.str c.g0
         | Option.none => st.1.utc_time) := by
  have h := congrArg (fun t => t.1) (applyLine_uv M st line hU)
  simp only [utcView] at h
  rw [h]
  cases hu : M.utc line <;> cases ho : M.origin line <;>
    simp [utcTupleOf, utcView]
  split <;> simp [utcView]

theorem applyLine_ob (M : Matchers) (st : ScanState) (line : String) :
    (applyLine M st line).1.observation_time =
      (match M.date line with
       | some c => PyVal.str c.g0
       | Option.none =>
         match M.earth line with
         | some c => PyVal.str c.g0
         | Option.none => st.1.observation_time) := by
  unfold applyLine
  simp only [ob_applyPeaks, ob_applyInterval, ob_applyInstr, ob_applyMag,
    ob_applyHypo, ob_applyStation, ob_applyOrigin, ob_applyUtc]
  rw [ob_applyDate]
  simp only [ob_applyStaChan, ob_applyChan]

theorem applyLine_sr (M : Matchers) (st : ScanState) (line : String) :
    (applyLine M st line).2 =
      (match M.interval line with
       | some q => some (1 / q)
       | Option.none => st.2) := by
  unfold applyLine
  simp only [sr_applyPeaks]
  rw [sr_applyInterval]
  simp only [sr_applyInstr, sr_applyMag, sr_applyHypo, sr_applyStation,
    sr_applyOrigin, sr_applyUtc, sr_applyDate, sr_applyStaChan, sr_applyChan]

theorem lastUtcCap_none_iff (M : Matchers) (ls : List String) :
    lastUtcCap M ls = Option.none ↔ ∀ l ∈ ls, M.utc l = Option.none := by
  induction ls with
  | nil => simp [lastUtcCap]
  | cons l rest ih =>
      cases hr : lastUtcCap M rest with
      | some c =>
          simp only [lastUtcCap, hr]
          constructor
          · intro hcon
            cases hcon
          · intro hall
            have hnone := ih.mpr (fun x hx => hall x (List.mem_cons_of_mem _ hx))
            rw [hnone] at hr
            cases hr
      | none =>
          simp only [lastUtcCap, hr]
          have hrest := ih.mp hr
          constructor
          · intro hl x hx
            rcases List.mem_cons.mp hx with rfl | hx'
            · exact hl
            · exact hrest x hx'
          · intro hall
            exact hall l (by simp)

theorem scan_uv_stable (M : Matchers)
    (hU : ∀ l c, M.utc l = some c → c.g0 ≠ "") :
    ∀ (ls : List String) (st : ScanState),
      pyTruthy st.1.utc_time = true →
      (∀ l ∈ ls, M.utc l = Option.none) →
      utcView (ls.foldl (applyLine M) st).1 = utcView st.1 := by
  intro ls
  induction ls with
  | nil => exact fun st _ _ => rfl
  | cons l rest ih =>
      intro st ht hn
      have h1 : M.utc l = Option.none := hn l (by simp)
      have hstep : utcView (applyLine M st l).1 = utcView st.1 := by
        rw [applyLine_uv M st l (fun c hc => hU l c hc)]
        cases ho : M.origin l <;> simp [h1, ho, ht]
      have hut : (applyLine M st l).1.utc_time = st.1.utc_time :=
        congrArg (fun t => t.1) hstep
      rw [List.foldl_cons,
        ih (applyLine M st l) (by rw [hut]; exact ht)
          (fun x hx => hn x (List.mem_cons_of_mem _ hx))]
      exact hstep

theorem scan_uv_lastUtc (M : Matchers)
    (hU : ∀ l c, M.utc l = some c → c.g0 ≠ "") {c : UtcCap} :
    ∀ (ls : List String) (st : ScanState),
      lastUtcCap M ls = some c →
      utcView (ls.foldl (applyLine M) st).1 = utcTupleOf c := by
  intro ls
  induction ls with
  | nil =>
      intro st h
      cases h
  | cons l rest ih =>
      intro st h
      rw [List.foldl_cons]
      cases hr : lastUtcCap M rest with
      | some c' =>
          have hcc : c' = c := by
            unfold lastUtcCap at h
            rw [hr] at h
            exact Option.some.inj h
          subst hcc
          exact ih (applyLine M st l) hr
      | none =>
          have hu : M.utc l = some c := by
            unfold lastUtcCap at h
            rw [hr] at h
            exact h
          have hrest := (lastUtcCap_none_iff M rest).mp hr
          have hstep : utcView (applyLine M st l).1 = utcTupleOf c := by
            rw [applyLine_uv M st l (fun c hc => hU l c hc)]
            simp [hu]
          have htr : pyTruthy (applyLine M st l).1.utc_time = true := by
            have h1 : (applyLine M st l).1.utc_time = PyVal.str c.g0 :=
              congrArg (fun t => t.1) hstep
            rw [h1]
            simp [pyTruthy, hU l c hu]
          rw [scan_uv_stable M hU rest _ htr hrest]
          exact hstep

theorem scan_uv_firstOrigin (M : Matchers)
    (hU : ∀ l c, M.utc l = some c → c.g0 ≠ "")
    (hO : ∀ l c, M.origin l = some c → c.g0 ≠ "") {c : UtcCap} :
    ∀ (ls : List String) (st : ScanState),
      pyTruthy st.1.utc_time = false →
      (∀ l ∈ ls, M.utc l = Option.none) →
      firstOriginCap M ls = some c →
      utcView (ls.foldl (applyLine M) st).1 = utcTupleOf c := by
  intro ls
  induction ls with
  | nil =>
      intro st _ _ h
      cases h
  | cons l rest ih =>
      intro st hf hn h
      rw [List.foldl_cons]
      have h1 : M.utc l = Option.none := hn l (by simp)
      cases ho : M.origin l with
      | some c' =>
          have hcc : c' = c := by
            unfold firstOriginCap at h
            rw [ho] at h
            exact Option.some.inj h
          subst hcc
          have hstep : utcView (applyLine M st l).1 = utcTupleOf c' := by
            rw [applyLine_uv M st l (fun c hc => hU l c hc)]
            simp [h1, ho, hf]
          have htr : pyTruthy (applyLine M st l).1.utc_time = true := by
            have hx : (applyLine M st l).1.utc_time = PyVal.str c'.g0 :=
              congrArg (fun t => t.1) hstep
            rw [hx]
            simp [pyTruthy, hO l c' ho]
          rw [scan_uv_stable M hU rest _ htr
            (fun x hx => hn x (List.mem_cons_of_mem _ hx))]
          exact hstep
      | none =>
          have hrec : firstOriginCap M rest = some c := by
            unfold firstOriginCap at h
            rw [ho] at h
            exact h
          have hstep : utcView (applyLine M st l).1 = utcView st.1 := by
            rw [applyLine_uv M st l (fun c hc => hU l c hc)]
            simp [h1, ho]
          have hf' : pyTruthy (applyLine M st l).1.utc_time = false := by
            have hx : (applyLine M st l).1.utc_time = st.1.utc_time :=
              congrArg (fun t => t.1) hstep
            rw [hx]
            exact hf
          rw [ih (applyLine M st l) hf'
            (fun x hx => hn x (List.mem_cons_of_mem _ hx)) hrec]

theorem scan_utc_truthy_mono (M : Matchers)
    (hU : ∀ l c, M.utc l = some c → c.g0 ≠ "") :
    ∀ (ls : List String) (st : ScanState),
      pyTruthy st.1.utc_time = true →
      pyTruthy ((ls.foldl (applyLine M) st).1.utc_time) = true := by
  intro ls
  induction ls with
  | nil => exact fun st h => h
  | cons l rest ih =>
      intro st h
      rw [List.foldl_cons]
      refine ih _ ?_
      rw [applyLine_utc_time M st l (fun c hc => hU l c hc)]
      cases hu : M.utc l with
      | some c => simp [pyTruthy, hU l c hu]
      | none =>
          cases ho : M.origin l with
          | some c => simp [h]
          | none => simp [h]

theorem scan_utc_truthy (M : Matchers)
    (hU : ∀ l c, M.utc l = some c → c.g0 ≠ "")
    (hO : ∀ l c, M.origin l = some c → c.g0 ≠ "") :
    ∀ (ls : List String) (st : ScanState),
      pyTruthy st.1.utc_time = false →
      (pyTruthy ((ls.foldl (applyLine M) st).1.utc_time) = true ↔
        ∃ l ∈ ls, (M.utc l).isSome ∨ (M.origin l).isSome) := by
  intro ls
  induction ls with
  | nil =>
      intro st h0
      simp [h0]
  | cons l rest ih =>
      intro st h0
      rw [List.foldl_cons]
      by_cases hm : (M.utc l).isSome ∨ (M.origin l).isSome
      · have step_truthy : pyTruthy (applyLine M st l).1.utc_time = true := by
          rw [applyLine_utc_time M st l (fun c hc => hU l c hc)]
          cases hu : M.utc l with
          | some c => simp [pyTruthy, hU l c hu]
          | none =>
              rcases hm with hs | hs
              · rw [hu] at hs
                cases hs
              · rcases Option.isSome_iff_exists.mp hs with ⟨c, hc⟩
                have hco : ¬ (pyTruthy st.1.utc_time = true) := by
                  simp [h0]
                simp only [hc, if_neg hco]
                simp [pyTruthy, hO l c hc]
        have hall : pyTruthy ((rest.foldl (applyLine M)
            (applyLine M st l)).1.utc_time) = true :=
          scan_utc_truthy_mono M hU rest _ step_truthy
        rw [hall]
        simp only [true_iff]
        exact ⟨l, by simp, hm⟩
      · have hu : M.utc l = Option.none := by
          cases hx : M.utc l with
          | some c => exact absurd (Or.inl (by simp [hx])) hm
          | none => rfl
        have ho : M.origin l = Option.none := by
          cases hx : M.origin l with
          | some c => exact absurd (Or.inr (by simp [hx])) hm
          | none => rfl
        have hstep : (applyLine M st l).1.utc_time = st.1.utc_time := by
          rw [applyLine_utc_time M st l (fun c hc => hU l c hc)]
          simp [hu, ho]
        rw [ih _ (by rw [hstep]; exact h0)]
        constructor
        · rintro ⟨x, hx, hor⟩
          exact ⟨x, List.mem_cons_of_mem _ hx, hor⟩
        · rintro ⟨x, hx, hor⟩
          rcases List.mem_cons.mp hx with rfl | hx'
          · rcases hor with hs | hs
            · rw [hu] at hs
              cases hs
            · rw [ho] at hs
              cases hs
          · exact ⟨x, hx', hor⟩

theorem scan_ob_truthy_mono (M : Matchers)
    (hD : ∀ l c, M.date l = some c → c.g0 ≠ "")
    (hE : ∀ l c, M.earth l = some c → c.g0 ≠ "") :
    ∀ (ls : List String) (st : ScanState),
      pyTruthy st.1.observation_time = true →
      pyTruthy ((ls.foldl (applyLine M) st).1.observation_time) = true := by
  intro ls
  induction ls with
  | nil => exact fun st h => h
  | cons l rest ih =>
      intro st h
      rw [List.foldl_cons]
      refine ih _ ?_
      rw [applyLine_ob M st l]
      cases hd : M.date l with
      | some c => simp [pyTruthy, hD l c hd]
      | none =>
          cases he : M.earth l with
          | some c => simp [pyTruthy, hE l c he]
          | none => simp [h]

theorem scan_ob_truthy (M : Matchers)
    (hD : ∀ l c, M.date l = some c → c.g0 ≠ "")
    (hE : ∀ l c, M.earth l = some c → c.g0 ≠ "") :
    ∀ (ls : List String) (st : ScanState),
      pyTruthy st.1.observation_time = false →
      (pyTruthy ((ls.foldl (applyLine M) st).1.observation_time) = true ↔
        ∃ l ∈ ls, (M.date l).isSome ∨ (M.earth l).isSome) := by
  intro ls
  induction ls with
  | nil =>
      intro st h0
      simp [h0]
  | cons l rest ih =>
      intro st h0
      rw [List.foldl_cons]
      by_cases hm : (M.date l).isSome ∨ (M.earth l).isSome
      · have step_truthy : pyTruthy (applyLine M st l).1.observation_time = true := by
          rw [applyLine_ob M st l]
          cases hd : M.date l with
          | some c => simp [pyTruthy, hD l c hd]
          | none =>
              rcases hm with hs | hs
              · rw [hd] at hs
                cases hs
              · rcases Option.isSome_iff_exists.mp hs with ⟨c, hc⟩
                simp [hc, pyTruthy, hE l c hc]
        have hall : pyTruthy ((rest.foldl (applyLine M)
            (applyLine M st l)).1.observation_time) = true :=
          scan_ob_truthy_mono M hD hE rest _ step_truthy
        rw [hall]
        simp only [true_iff]
        exact ⟨l, by simp, hm⟩
      · have hd : M.date l = Option.none := by
          cases hx : M.date l with
          | some c => exact absurd (Or.inl (by simp [hx])) hm
          | none => rfl
        have he : M.earth l = Option.none := by
          cases hx : M.earth l with
          | some c => exact absurd (Or.inr (by simp [hx])) hm
          | none => rfl
        have hstep : (applyLine M st l).1.observation_time = st.1.observation_time := by
          rw [applyLine_ob M st l]
          simp [hd, he]
        rw [ih _ (by rw [hstep]; exact h0)]
        constructor
        · rintro ⟨x, hx, hor⟩
          exact ⟨x, List.mem_cons_of_mem _ hx, hor⟩
        · rintro ⟨x, hx, hor⟩
          rcases List.mem_cons.mp hx with rfl | hx'
          · rcases hor with hs | hs
            · rw [hd] at hs
              cases hs
            · rw [he] at hs
              cases hs
          · exact ⟨x, hx', hor⟩

theorem scan_sr_eq (M : Matchers) :
    ∀ (ls : List String) (st : ScanState),
      (ls.foldl (applyLine M) st).2 =
        (match lastIntervalVal M ls with
         | some q => some (1 / q)
         | Option.none => st.2) := by
  intro ls
  induction ls with
  | nil => exact fun st => rfl
  | cons l rest ih =>
      intro st
      rw [List.foldl_cons, ih]
      cases hr : lastIntervalVal M rest with
      | some q => simp [lastIntervalVal, hr]
      | none =>
          simp only [lastIntervalVal, hr]
          rw [applyLine_sr]

/-! ## Lemmas about the metadata store -/

theorem setKnownField_extras (m : Metadata) (k : String) (v : PyVal) :
    (setKnownField m k v).extras = m.extras := by
  unfold setKnownField
  split <;> rfl

theorem mem_dictSet_keys {d : List (String × PyVal)} {k k' : String} {v : PyVal}
    (h : k' ∈ (dictSet d k v).map Prod.fst) :
    k' = k ∨ k' ∈ d.map Prod.fst := by
  unfold dictSet at h
  split at h
  · rcases List.mem_map.mp h with ⟨q, hq, hqe⟩
    rcases List.mem_map.mp hq with ⟨p, hp, hpe⟩
    by_cases hk : p.1 == k
    · rw [if_pos hk] at hpe
      left
      rw [← hpe] at hqe
      exact hqe.symm
    · rw [if_neg hk] at hpe
      right
      exact List.mem_map.mpr ⟨p, hp, hpe ▸ hqe⟩
  · rw [List.map_append] at h
    rcases List.mem_append.mp h with hmem | hk
    · exact Or.inr hmem
    · simp at hk
      exact Or.inl hk

theorem build_extras_keys_not_known (ops : List (String × PyVal)) (m : Metadata)
    (hm : ∀ k ∈ m.extras.map Prod.fst, k ∉ knownFieldNames) :
    ∀ k ∈ (ops.foldl (fun m p => setItem m p.1 p.2) m).extras.map Prod.fst,
      k ∉ knownFieldNames := by
  induction ops generalizing m with
  | nil => exact hm
  | cons p rest ih =>
      intro k hk
      refine ih (setItem m p.1 p.2) ?_ k hk
      intro k' hk'
      unfold setItem at hk'
      by_cases hkn : p.1 ∈ knownFieldNames
      · rw [if_pos hkn, setKnownField_extras] at hk'
        exact hm k' hk'
      · rw [if_neg hkn] at hk'
        rcases mem_dictSet_keys hk' with rfl | hmem
        · exact hkn
        · exact hm k' hmem

/-- **C10**: a store under a known field name updates that field's slot and
leaves the `extras` map untouched; a store under any other name changes
only the `extras` map; hence, starting from a fresh `Metadata`, after any
sequence of `__setitem__` stores the `extras` keys stay disjoint from the
known field names. -/
theorem metadata_extras_never_collide :
    (∀ (m : Metadata) (k : String) (v : PyVal), k ∈ knownFieldNames →
        (setItem m k v).extras = m.extras) ∧
    (∀ (m : Metadata) (k : String) (v : PyVal), k ∉ knownFieldNames →
        setItem m k v = { m with extras := dictSet m.extras k v }) ∧
    (∀ (fp : String) (ops : List (String × PyVal)) (k : String),
        k ∈ (buildMetadata fp ops).extras.map Prod.fst → k ∉ knownFieldNames) := by
  refine ⟨?_, ?_, ?_⟩
  · intro m k v hk
    unfold setItem
    rw [if_pos hk, setKnownField_extras]
  · intro m k v hk
    unfold setItem
    rw [if_neg hk]
  · intro fp ops k hk
    refine build_extras_keys_not_known ops (Metadata.from_filepath fp) ?_ k hk
    intro k' hk'
    simp [Metadata.from_filepath, emptyMetadata] at hk'

/-- Witness for C10 at a concrete store sequence: a fresh record receives a
known-field store and an unknown-key store, and the unknown key is indeed
not a known field name. -/
theorem metadata_extras_never_collide_w :
    ("record_note" : String) ∉ knownFieldNames :=
  metadata_extras_never_collide.2.2 "data/chan1.V2"
    [("channel_number", .int 5), ("record_note", .str "x")] "record_note" (by decide)

/-! ## Lemmas about year normalization -/

theorem toNat_ofNat_ascii (n : Nat) (h : n < 128) : (Char.ofNat n).toNat = n := by
  have hv : n.isValidChar := Or.inl (by omega)
  simp [Char.ofNat, hv, Char.toNat, Char.ofNatAux, UInt32.toNat, BitVec.toNat_ofNatLt]

theorem strToInt_twoDigits (y : Nat) (h : y < 100) :
    strToInt (twoDigits y) = (y : Int) := by
  have h1 : (Char.ofNat (48 + y / 10)).toNat = 48 + y / 10 :=
    toNat_ofNat_ascii _ (by omega)
  have h2 : (Char.ofNat (48 + y % 10)).toNat = 48 + y % 10 :=
    toNat_ofNat_ascii _ (by omega)
  simp [strToInt, twoDigits, digitsVal, h1, h2]
  omega

theorem strToInt_fourDigits (y : Nat) (h : y < 10000) :
    strToInt (fourDigits y) = (y : Int) := by
  have h1 : (Char.ofNat (48 + y / 1000)).toNat = 48 + y / 1000 :=
    toNat_ofNat_ascii _ (by omega)
  have h2 : (Char.ofNat (48 + y / 100 % 10)).toNat = 48 + y / 100 % 10 :=
    toNat_ofNat_ascii _ (by omega)
  have h3 : (Char.ofNat (48 + y / 10 % 10)).toNat = 48 + y / 10 % 10 :=
    toNat_ofNat_ascii _ (by omega)
  have h4 : (Char.ofNat (48 + y % 10)).toNat = 48 + y % 10 :=
    toNat_ofNat_ascii _ (by omega)
  simp [strToInt, fourDigits, digitsVal, h1, h2, h3, h4]
  omega

/-- **C5**: a captured two-digit year `y` normalizes to `1900 + y` when
`y ≥ 90` and to `2000 + y` otherwise, and a captured four-digit year is
taken unchanged. -/
theorem year_normalization :
    (∀ y : Nat, y < 100 → normalizeYear (twoDigits y) =
      if 90 ≤ y then 1900 + (y : Int) else 2000 + (y : Int)) ∧
    (∀ y : Nat, y < 10000 → normalizeYear (fourDigits y) = (y : Int)) := by
  constructor
  · intro y hy
    have hlen : (twoDigits y).length = 2 := rfl
    rw [normalizeYear, if_pos hlen, strToInt_twoDigits y hy]
    split <;> split <;> first | rfl | omega
  · intro y hy
    have hlen : (fourDigits y).length = 4 := rfl
    rw [normalizeYear, if_neg (by omega), strToInt_fourDigits y hy]

/-- Witness for C5 at the concrete years of the claim: `95 → 1995`,
`05 → 2005`, `89 → 2089`, and the four-digit `1987` is unchanged. -/
theorem year_normalization_w :
    normalizeYear (twoDigits 95) = 1995 ∧ normalizeYear (twoDigits 5) = 2005 ∧
    normalizeYear (twoDigits 89) = 2089 ∧ normalizeYear (fourDigits 1987) = 1987 :=
  ⟨(year_normalization.1 95 (by decide)).trans (by decide),
   (year_normalization.1 5 (by decide)).trans (by decide),
   (year_normalization.1 89 (by decide)).trans (by decide),
   (year_normalization.2 1987 (by decide)).trans (by decide)⟩

/-! ## Multi-channel detection -/

/-- **C8**: the file content is flagged multi-channel exactly when the
case-insensitive occurrence count of "corrected accelerogram" exceeds 2;
in particular a count of exactly 2 is not multi-channel and a count of 3
or more is. -/
theorem multi_channel_detection (content : String) :
    (has_multiple_channels content = true ↔
      2 < countOccurrences (pyLowerL content.toList) "corrected accelerogram".toList) ∧
    (countOccurrences (pyLowerL content.toList) "corrected accelerogram".toList = 2 →
      has_multiple_channels content = false) ∧
    (3 ≤ countOccurrences (pyLowerL content.toList) "corrected accelerogram".toList →
      has_multiple_channels content = true) := by
  unfold has_multiple_channels
  simp only [decide_eq_true_eq, decide_eq_false_iff_not, not_lt]
  exact ⟨by trivial, fun h => by omega, fun h => by omega⟩

/-- Witness for C8: content with exactly two marker occurrences is not
split-worthy; three occurrences are. -/
theorem multi_channel_detection_w :
    has_multiple_channels
      "Corrected accelerogram header\nCorrected Accelerogram Chan 2:" = false ∧
    has_multiple_channels
      "corrected accelerogram corrected accelerogram CORRECTED ACCELEROGRAM" = true :=
  ⟨(multi_channel_detection _).2.1 (by decide),
   (multi_channel_detection _).2.2 (by decide)⟩

/-! ## The fixed-width decoder's failure granularity -/

theorem optMapAll_isSome_of_all {f : α → Option β} {l : List α}
    (h : ∀ a ∈ l, (f a).isSome) : (optMapAll f l).isSome := by
  induction l with
  | nil => simp [optMapAll]
  | cons a as ih =>
      rcases Option.isSome_iff_exists.mp (h a (by simp)) with ⟨b, hb⟩
      rcases Option.isSome_iff_exists.mp (ih (fun x hx => h x (by simp [hx]))) with ⟨bs, hbs⟩
      simp [optMapAll, hb, hbs]

theorem optMapAll_eq_none_of_mem {f : α → Option β} {l : List α} {a : α}
    (ha : a ∈ l) (hf : f a = Option.none) : optMapAll f l = Option.none := by
  induction l with
  | nil => cases ha
  | cons b bs ih =>
      rcases List.mem_cons.mp ha with rfl | h
      · simp [optMapAll, hf]
      · cases hfb : f b <;> simp [optMapAll, hfb, ih h]

/-- **C1 (counterexample)**: on the line `"       1.0abcdefghij"` the first
10-character column converts successfully to `1.0`, yet the decoded output
of the line range is empty — the second column's conversion failure drops
the whole line, not just that column, so the claim's "every other
successfully convertible column on the same line still appears" is false. -/
theorem decoder_column_drop_cex :
    floatModel "       1.0" = some 1 ∧
    "       1.0" ∈ attemptedSlices "       1.0abcdefghij" ∧
    floatModel "abcdefghij" = Option.none ∧
    decodeRange floatModel ["       1.0abcdefghij"] 0 1 = [] :=
  ⟨by decide, by decide, by decide, by decide⟩

/-- **C1 (amended)**: the decoder reads up to 8 fixed 10-character columns
per line, attempting a column only if its length-clipped slice is longer
than 3 characters; a line all of whose attempted columns convert
contributes exactly those values in column order, but if any attempted
column fails numeric conversion the **entire line** is dropped; the output
is the concatenation of the per-line decodings in line order. -/
theorem decoder_line_policy (conv : String → Option ℚ) (content : List String)
    (s e : Nat) :
    decodeRange conv content s e =
      (((content.drop s).take (e - s)).map (decodeLine conv)).flatten ∧
    (∀ line : String, (∀ sl ∈ attemptedSlices line, (conv sl).isSome) →
      some (decodeLine conv line) = optMapAll conv (attemptedSlices line)) ∧
    (∀ line : String, (∃ sl ∈ attemptedSlices line, conv sl = Option.none) →
      decodeLine conv line = []) := by
  refine ⟨rfl, ?_, ?_⟩
  · intro line h
    rcases Option.isSome_iff_exists.mp (optMapAll_isSome_of_all h) with ⟨vs, hvs⟩
    rw [decodeLine, hvs]
    rfl
  · intro line h
    rcases h with ⟨sl, hmem, hnone⟩
    rw [decodeLine, optMapAll_eq_none_of_mem hmem hnone]
    rfl

/-- Witness for the amended C1: a fully convertible line decodes to its
column values, and a line with one bad column decodes to nothing. -/
theorem decoder_line_policy_w :
    some (decodeLine floatModel "       1.0      -2.0") =
      optMapAll floatModel (attemptedSlices "       1.0      -2.0") ∧
    decodeLine floatModel "       1.0abcdefghij" = [] :=
  ⟨(decoder_line_policy floatModel [] 0 0).2.1 "       1.0      -2.0" (by decide),
   (decoder_line_policy floatModel [] 0 0).2.2 "       1.0abcdefghij"
     ⟨"abcdefghij", by decide, by decide⟩⟩

/-! ## Fixture facts -/

theorem testMatchers_caps : capsNonempty testMatchers := by
  refine ⟨?_, ?_, ?_, ?_⟩ <;> intro l c hc <;> simp only [testMatchers] at hc
  · split at hc
    · cases hc
      simp [dateCapA]
    · cases hc
  · cases hc
  · split at hc
    · cases hc
      simp [utcCapA]
    · cases hc
  · split at hc
    · cases hc
      simp [originCapA]
    · cases hc

theorem testMatchers_interval_pos :
    ∀ l q, testMatchers.interval l = some q → 0 < q := by
  intro l q hq
  simp only [testMatchers] at hq
  split at hq
  · cases hq
    norm_num
  · cases hq

/-! ## C4: Start-time takes precedence over ORIGIN -/

/-- **C4**: whenever some line within the first 30 matched the Start-time
form, the final UTC fields are those computed from the (last such)
Start-time capture, regardless of where any ORIGIN line sits; the ORIGIN
form populates the UTC fields only when no line matched the Start-time
form, in which case the first ORIGIN capture wins. -/
theorem utc_start_time_precedence (M : Matchers) (fp : String)
    (content : List String) (h : capsNonempty M) :
    (∀ c : UtcCap, lastUtcCap M (content.take 30) = some c →
      utcView (headerScan M fp content).1 = utcTupleOf c) ∧
    ((∀ l ∈ content.take 30, M.utc l = Option.none) →
      ∀ c : UtcCap, firstOriginCap M (content.take 30) = some c →
        utcView (headerScan M fp content).1 = utcTupleOf c) := by
  obtain ⟨hD, hE, hU, hO⟩ := h
  constructor
  · intro c hc
    exact scan_uv_lastUtc M hU (content.take 30) _ hc
  · intro hn c hc
    exact scan_uv_firstOrigin M hU hO (content.take 30) _ rfl hn hc

/-- Witness for C4: with the ORIGIN line scanned *before* the Start-time
line, the final UTC fields still come from the Start-time capture. -/
theorem utc_start_time_precedence_w :
    utcView (headerScan testMatchers "f.V2" ["ORIG", "UTC1"]).1 =
      utcTupleOf utcCapA :=
  (utc_start_time_precedence testMatchers "f.V2" ["ORIG", "UTC1"]
    testMatchers_caps).1 utcCapA (by decide)

/-! ## C2: time-axis synthesis -/

theorem lastIntervalVal_mem (M : Matchers) :
    ∀ (ls : List String) (q : ℚ), lastIntervalVal M ls = some q →
      ∃ l ∈ ls, M.interval l = some q := by
  intro ls
  induction ls with
  | nil =>
      intro q h
      cases h
  | cons l rest ih =>
      intro q h
      cases hr : lastIntervalVal M rest with
      | some q' =>
          have hqq : q' = q := by
            unfold lastIntervalVal at h
            rw [hr] at h
            exact Option.some.inj h
          rcases ih q' hr with ⟨x, hx, hxq⟩
          rw [hqq] at hxq
          exact ⟨x, List.mem_cons_of_mem _ hx, hxq⟩
      | none =>
          have : M.interval l = some q := by
            unfold lastIntervalVal at h
            rw [hr] at h
            exact h
          exact ⟨l, by simp, this⟩

theorem scan_sr_pos (M : Matchers)
    (hpos : ∀ l q, M.interval l = some q → 0 < q)
    (ls : List String) (fp : String) {r : ℚ}
    (h : (ls.foldl (applyLine M) (Metadata.from_filepath fp, Option.none)).2 = some r) :
    0 < r := by
  rw [scan_sr_eq M ls _] at h
  cases hl : lastIntervalVal M ls with
  | some q =>
      rw [hl] at h
      rcases lastIntervalVal_mem M ls q hl with ⟨x, _, hxq⟩
      have hq := hpos x q hxq
      have : r = 1 / q := (Option.some.inj h).symm
      rw [this]
      positivity
  | none =>
      rw [hl] at h
      cases h

/-- **C2**: for every successful parse whose captured sampling intervals
are genuinely positive (on other inputs the Python float division/arange
raises and no record is returned), the time sequence is present iff a
sampling rate was recovered by the header scan, and when present it is
exactly `[0·dt, 1·dt, …]` — `dt` the reciprocal of the recovered rate —
truncated to the acceleration count, so its length equals the
acceleration length. -/
theorem time_axis_length (M : Matchers) (conv : String → Option ℚ)
    (fp : String) (content : List String) (rec : WaveformRecord)
    (hpos : ∀ l q, M.interval l = some q → 0 < q)
    (h : parse_v2_file M conv fp content = .ok rec) :
    (rec.time.isSome ↔ ((headerScan M fp content).2).isSome) ∧
    (∀ t, rec.time = some t →
      t.length = rec.acceleration.length ∧
      ∃ r : ℚ, (headerScan M fp content).2 = some r ∧
        t = (List.range rec.acceleration.length).map (fun i : Nat => (i : ℚ) * (1 / r))) := by
  simp only [parse_v2_file] at h
  split at h
  · cases h
  · split at h
    · cases h
    · split at h
      · cases h
      · rw [Except.ok.injEq] at h
        subst h
        cases hsr : (headerScan M fp content).2 with
        | none => simp [hsr]
        | some r =>
            have hr : 0 < r := scan_sr_pos M hpos (content.take 30) fp hsr
            have hdt : (0 : ℚ) < 1 / r := by positivity
            have hdtne : (1 : ℚ) / r ≠ 0 := ne_of_gt hdt
            simp only [hsr]
            constructor
            · simp
            · intro t ht
              rw [Option.some.injEq] at ht
              set n := (decodeRange conv content _ _).length with hn
              have hcount : Int.toNat ⌈((n : ℚ) * (1 / r)) / (1 / r)⌉ = n := by
                rw [mul_div_assoc, div_self hdtne, mul_one, Int.ceil_natCast,
                  Int.toNat_natCast]
              have harange : npArange ((n : ℚ) * (1 / r)) (1 / r) =
                  (List.range n).map (fun i : Nat => (i : ℚ) * (1 / r)) := by
                unfold npArange
                rw [if_neg (by push_neg; exact hdt), hcount]
              have hlen : ((List.range n).map (fun i : Nat => (i : ℚ) * (1 / r))).length = n := by
                simp
              rw [harange] at ht
              rw [List.take_of_length_le (le_of_eq hlen)] at ht
              subst ht
              exact ⟨hlen, r, rfl, rfl⟩

/-- Witness for C2 on a concrete parsed record: its time axis is present,
of the same length as the acceleration sequence. -/
theorem time_axis_length_w :
    demoRecord.time.isSome ↔
      ((headerScan testMatchers "f.V2" demoContent).2).isSome :=
  (time_axis_length testMatchers floatModel "f.V2" demoContent demoRecord
    testMatchers_interval_pos (by rfl)).1

/-! ## C3: the parse outcomes -/

theorem locate_starts_pos (content : List String) :
    (∀ k, (locateSections content).accelStart = some k → 0 < k) ∧
    (∀ k, (locateSections content).velocStart = some k → 0 < k) ∧
    (∀ k, (locateSections content).displStart = some k → 0 < k) := by
  have key : ∀ (ps : List (Nat × String)) (si : SecInfo),
      ((∀ k, si.accelStart = some k → 0 < k) ∧
       (∀ k, si.velocStart = some k → 0 < k) ∧
       (∀ k, si.displStart = some k → 0 < k)) →
      ((∀ k, (ps.foldl (fun si p => locStep si p.1 p.2) si).accelStart = some k → 0 < k) ∧
       (∀ k, (ps.foldl (fun si p => locStep si p.1 p.2) si).velocStart = some k → 0 < k) ∧
       (∀ k, (ps.foldl (fun si p => locStep si p.1 p.2) si).displStart = some k → 0 < k)) := by
    intro ps
    induction ps with
    | nil => exact fun si h => h
    | cons p rest ih =>
        intro si hsi
        rw [List.foldl_cons]
        refine ih _ ?_
        unfold locStep
        rcases hsi with ⟨h1, h2, h3⟩
        cases hmc : markerClass p.2 with
        | none => exact ⟨h1, h2, h3⟩
        | some mk =>
            cases mk
            all_goals refine ⟨?_, ?_, ?_⟩ <;> intro k hk <;> simp at hk
            all_goals first
              | omega
              | (exact h1 k (by rw [hk]))
              | (exact h2 k (by rw [hk]))
              | (exact h3 k (by rw [hk]))
  exact key content.enum ⟨.none, .none, .none, .none⟩
    (by refine ⟨?_, ?_, ?_⟩ <;> intro k hk <;> cases hk)

/-! ## C7: section location -/

theorem locFold_accel : ∀ (ps : List (Nat × String)) (si : SecInfo),
    (ps.foldl (fun si p => locStep si p.1 p.2) si).accelStart =
      (match lastMarkerIdx .accel ps with
       | some i => some (i + 1)
       | Option.none => si.accelStart) := by
  intro ps
  induction ps with
  | nil => exact fun si => rfl
  | cons p rest ih =>
      intro si
      rw [List.foldl_cons, ih]
      cases hr : lastMarkerIdx .accel rest with
      | some i => simp [lastMarkerIdx, hr]
      | none =>
          simp only [lastMarkerIdx, hr]
          unfold locStep
          cases hmc : markerClass p.2 with
          | none => simp [hmc]
          | some mk => cases mk <;> simp [hmc]

theorem locate_accelStart (content : List String) :
    (locateSections content).accelStart =
      (match lastMarkerIdx .accel content.enum with
       | some i => some (i + 1)
       | Option.none => Option.none) := by
  unfold locateSections
  rw [locFold_accel]

theorem locFold_veloc : ∀ (ps : List (Nat × String)) (si : SecInfo),
    (ps.foldl (fun si p => locStep si p.1 p.2) si).velocStart =
      (match lastMarkerIdx .veloc ps with
       | some i => some (i + 1)
       | Option.none => si.velocStart) := by
  intro ps
  induction ps with
  | nil => exact fun si => rfl
  | cons p rest ih =>
      intro si
      rw [List.foldl_cons, ih]
      cases hr : lastMarkerIdx .veloc rest with
      | some i => simp [lastMarkerIdx, hr]
      | none =>
          simp only [lastMarkerIdx, hr]
          unfold locStep
          cases hmc : markerClass p.2 with
          | none => simp [hmc]
          | some mk => cases mk <;> simp [hmc]

theorem locate_velocStart (content : List String) :
    (locateSections content).velocStart =
      (match lastMarkerIdx .veloc content.enum with
       | some i => some (i + 1)
       | Option.none => Option.none) := by
  unfold locateSections
  rw [locFold_veloc]

theorem locFold_displ : ∀ (ps : List (Nat × String)) (si : SecInfo),
    (ps.foldl (fun si p => locStep si p.1 p.2) si).displStart =
      (match lastMarkerIdx .displ ps with
       | some i => some (i + 1)
       | Option.none => si.displStart) := by
  intro ps
  induction ps with
  | nil => exact fun si => rfl
  | cons p rest ih =>
      intro si
      rw [List.foldl_cons, ih]
      cases hr : lastMarkerIdx .displ rest with
      | some i => simp [lastMarkerIdx, hr]
      | none =>
          simp only [lastMarkerIdx, hr]
          unfold locStep
          cases hmc : markerClass p.2 with
          | none => simp [hmc]
          | some mk => cases mk <;> simp [hmc]

theorem locate_displStart (content : List String) :
    (locateSections content).displStart =
      (match lastMarkerIdx .displ content.enum with
       | some i => some (i + 1)
       | Option.none => Option.none) := by
  unfold locateSections
  rw [locFold_displ]

theorem locFold_endData : ∀ (ps : List (Nat × String)) (si : SecInfo),
    (ps.foldl (fun si p => locStep si p.1 p.2) si).endLine =
      (match lastMarkerIdx .endData ps with
       | some i => some i
       | Option.none => si.endLine) := by
  intro ps
  induction ps with
  | nil => exact fun si => rfl
  | cons p rest ih =>
      intro si
      rw [List.foldl_cons, ih]
      cases hr : lastMarkerIdx .endData rest with
      | some i => simp [lastMarkerIdx, hr]
      | none =>
          simp only [lastMarkerIdx, hr]
          unfold locStep
          cases hmc : markerClass p.2 with
          | none => simp [hmc]
          | some mk => cases mk <;> simp [hmc]

theorem locate_endLine (content : List String) :
    (locateSections content).endLine =
      (match lastMarkerIdx .endData content.enum with
       | some i => some i
       | Option.none => Option.none) := by
  unfold locateSections
  rw [locFold_endData]

theorem lastMarkerIdx_sound (kind : MKind) :
    ∀ (ps : List (Nat × String)) (i : Nat), lastMarkerIdx kind ps = some i →
      ∃ p ∈ ps, p.1 = i ∧ markerClass p.2 = some kind := by
  intro ps
  induction ps with
  | nil =>
      intro i h
      cases h
  | cons p rest ih =>
      intro i h
      cases hr : lastMarkerIdx kind rest with
      | some j =>
          have hji : j = i := by
            unfold lastMarkerIdx at h
            rw [hr] at h
            exact Option.some.inj h
          rcases ih j hr with ⟨q, hq, hq1, hq2⟩
          exact ⟨q, List.mem_cons_of_mem _ hq, hji ▸ hq1, hq2⟩
      | none =>
          have h' : (if markerClass p.2 = some kind then some p.1
              else Option.none) = some i := by
            unfold lastMarkerIdx at h
            rw [hr] at h
            exact h
          by_cases hmk : markerClass p.2 = some kind
          · rw [if_pos hmk] at h'
            exact ⟨p, by simp, Option.some.inj h', hmk⟩
          · rw [if_neg hmk] at h'
            cases h'

theorem lastMarkerIdx_unique (kind : MKind) :
    ∀ (ps : List (Nat × String)) (j : Nat),
      (∃ p ∈ ps, p.1 = j ∧ markerClass p.2 = some kind) →
      (∀ p ∈ ps, markerClass p.2 = some kind → p.1 = j) →
      lastMarkerIdx kind ps = some j := by
  intro ps
  induction ps with
  | nil =>
      rintro j ⟨p, hp, _⟩ _
      cases hp
  | cons p rest ih =>
      rintro j ⟨q, hq, hq1, hq2⟩ huniq
      cases hr : lastMarkerIdx kind rest with
      | some i =>
          rcases lastMarkerIdx_sound kind rest i hr with ⟨w, hw, hw1, hw2⟩
          have : w.1 = j := huniq w (List.mem_cons_of_mem _ hw) hw2
          unfold lastMarkerIdx
          rw [hr, ← hw1, this]
      | none =>
          rcases List.mem_cons.mp hq with rfl | hq'
          · unfold lastMarkerIdx
            rw [hr, if_pos hq2, hq1]
          · exfalso
            have hcon : ∃ w ∈ rest, w.1 = j ∧ markerClass w.2 = some kind :=
              ⟨q, hq', hq1, hq2⟩
            rcases hcon with ⟨w, hw, hw1, hw2⟩
            have : lastMarkerIdx kind rest = some j := by
              refine ih j ⟨w, hw, hw1, hw2⟩ ?_
              intro x hx hxk
              exact huniq x (List.mem_cons_of_mem _ hx) hxk
            rw [this] at hr
            cases hr

theorem lastMarkerIdx_enum (content : List String) (kind : MKind) (j : Nat)
    (hj : j < content.length) (hmark : markerClass (content[j]) = some kind)
    (huniq : ∀ i (hi : i < content.length),
      markerClass (content[i]) = some kind → i = j) :
    lastMarkerIdx kind content.enum = some j := by
  apply lastMarkerIdx_unique
  · refine ⟨(j, content[j]), ?_, rfl, hmark⟩
    have hje : j < content.enum.length := by simpa using hj
    have hg : content.enum[j] = (j, content[j]) := List.getElem_enum _ _ _
    rw [← hg]
    exact List.getElem_mem hje
  · intro p hp hpk
    have h1 := List.mem_enum_iff_getElem?.mp hp
    rcases List.getElem?_eq_some.mp h1 with ⟨hlt, hget⟩
    have hcp : content[p.1] = p.2 := by simpa using hget
    exact huniq p.1 hlt (by rw [hcp]; exact hpk)

theorem lastMarkerIdx_enum_none (content : List String) (kind : MKind)
    (hnone : ∀ i (hi : i < content.length),
      markerClass (content[i]) ≠ some kind) :
    lastMarkerIdx kind content.enum = Option.none := by
  cases hr : lastMarkerIdx kind content.enum with
  | none => rfl
  | some i =>
      exfalso
      rcases lastMarkerIdx_sound kind content.enum i hr with ⟨p, hp, hp1, hp2⟩
      have h1 := List.mem_enum_iff_getElem?.mp hp
      rcases List.getElem?_eq_some.mp h1 with ⟨hlt, hget⟩
      have hcp : content[p.1] = p.2 := by simpa using hget
      exact hnone p.1 hlt (by rw [hcp]; exact hp2)

/-- **C7**: with the acceleration marker on line `a`, an optional velocity
marker on line `v`, an optional displacement marker on line `d` and the
end-of-data marker on line `e` (and no marker elsewhere), the locator
records the data-start lines `a+1` / `v+1` / `d+1` and the raw end line
`e`; acceleration's exclusive end is the velocity marker line (start minus
one) when a velocity marker exists, else the end-of-data line; velocity's
end is the displacement start minus one when a displacement marker exists,
else the end-of-data line; displacement's end is always the end-of-data
line; and every successful parse decodes exactly those line ranges for the
three quantities. -/
theorem section_ranges (content : List String) (a e : Nat)
    (vOpt dOpt : Option Nat)
    (ha : a < content.length) (he : e < content.length) (hae : a < e)
    (hv : ∀ v ∈ vOpt, a < v ∧ v < e)
    (hd : ∀ d ∈ dOpt, a < d ∧ d < e)
    (hvd : ∀ v ∈ vOpt, ∀ d ∈ dOpt, v ≠ d)
    (hm : ∀ i (hi : i < content.length),
      markerClass (content[i]) =
        (if i = a then some .accel
         else if vOpt = some i then some .veloc
         else if dOpt = some i then some .displ
         else if i = e then some .endData
         else Option.none)) :
    locateSections content =
      ⟨some (a + 1), vOpt.map (· + 1), dOpt.map (· + 1), some e⟩ ∧
    accelEndLine (locateSections content) =
      some (match vOpt with | some v => v | Option.none => e) ∧
    velocEndLine (locateSections content) =
      some (match dOpt with | some d => d | Option.none => e) ∧
    displEndLine (locateSections content) = some e ∧
    (∀ (M : Matchers) (conv : String → Option ℚ) (fp : String)
        (r : WaveformRecord),
      parse_v2_file M conv fp content = .ok r →
      r.acceleration = decodeRange conv content (a + 1)
        (match vOpt with | some v => v | Option.none => e) ∧
      r.velocity = vOpt.map (fun v => decodeRange conv content (v + 1)
        (match dOpt with | some d => d | Option.none => e)) ∧
      r.displacement = dOpt.map (fun d => decodeRange conv content (d + 1) e)) := by
  have hacc : lastMarkerIdx .accel content.enum = some a := by
    apply lastMarkerIdx_enum content .accel a ha
    · rw [hm a ha]
      simp
    · intro i hi hk
      rw [hm i hi] at hk
      split_ifs at hk <;> simp_all
  have hnve : ¬ (vOpt = some e) := by
    intro hc
    have := hv e (by rw [hc]; rfl)
    omega
  have hnde : ¬ (dOpt = some e) := by
    intro hc
    have := hd e (by rw [hc]; rfl)
    omega
  have hend : lastMarkerIdx .endData content.enum = some e := by
    apply lastMarkerIdx_enum content .endData e he
    · rw [hm e he, if_neg (show ¬ e = a by omega), if_neg hnve, if_neg hnde,
        if_pos rfl]
    · intro i hi hk
      rw [hm i hi] at hk
      split_ifs at hk <;> simp_all
  have hvel : lastMarkerIdx .veloc content.enum = vOpt := by
    cases hvo : vOpt with
    | none =>
        apply lastMarkerIdx_enum_none
        intro i hi hk
        rw [hm i hi] at hk
        rw [hvo] at hk
        split_ifs at hk <;> simp_all
    | some v =>
        rw [hvo] at hv hvd hm
        have hvb := hv v rfl
        apply lastMarkerIdx_enum content .veloc v (by omega)
        · rw [hm v (by omega), if_neg (show ¬ v = a by omega), if_pos rfl]
        · intro i hi hk
          rw [hm i hi] at hk
          split_ifs at hk <;> simp_all
  have hdis : lastMarkerIdx .displ content.enum = dOpt := by
    cases hdo : dOpt with
    | none =>
        apply lastMarkerIdx_enum_none
        intro i hi hk
        rw [hm i hi] at hk
        rw [hdo] at hk
        split_ifs at hk <;> simp_all
    | some d =>
        rw [hdo] at hd hvd hm
        have hdb := hd d rfl
        have hnvd : ¬ (vOpt = some d) := by
          intro hc
          exact hvd d (by rw [hc]; rfl) d rfl rfl
        apply lastMarkerIdx_enum content .displ d (by omega)
        · rw [hm d (by omega), if_neg (show ¬ d = a by omega), if_neg hnvd,
            if_pos rfl]
        · intro i hi hk
          rw [hm i hi] at hk
          split_ifs at hk <;> simp_all
  have h1 := locate_accelStart content
  have h2 := locate_velocStart content
  have h3 := locate_displStart content
  have h4 := locate_endLine content
  rw [hacc] at h1
  rw [hvel] at h2
  rw [hdis] at h3
  rw [hend] at h4
  have hloc : locateSections content =
      ⟨some (a + 1), vOpt.map (· + 1), dOpt.map (· + 1), some e⟩ := by
    rcases hsi : locateSections content with ⟨c1, c2, c3, c4⟩
    rw [hsi] at h1 h2 h3 h4
    simp only at h1 h2 h3 h4
    rw [h1, h4]
    cases vOpt <;> cases dOpt <;> simp_all
  have he0 : e ≠ 0 := by omega
  refine ⟨hloc, ?_, ?_, ?_, ?_⟩
  · simp only [hloc]
    unfold accelEndLine
    cases vOpt <;> simp [pyTruthyN]
  · simp only [hloc]
    unfold velocEndLine
    cases dOpt <;> simp [pyTruthyN]
  · simp only [hloc]
    rfl
  · intro M conv fp r hpr
    simp only [parse_v2_file, hloc] at hpr
    split at hpr
    · cases hpr
    · cases vOpt with
      | none =>
          cases dOpt with
          | none =>
              simp [accelEndLine, velocEndLine, displEndLine, pyTruthyN,
                he0] at hpr
              rw [← hpr]
              simp [he0]
          | some d =>
              have hdb := hd d rfl
              have hd0 : d ≠ 0 := by omega
              simp [accelEndLine, velocEndLine, displEndLine, pyTruthyN,
                he0, hd0] at hpr
              rw [← hpr]
              simp [he0, hd0]
      | some v =>
          have hvb := hv v rfl
          cases dOpt with
          | none =>
              simp [accelEndLine, velocEndLine, displEndLine, pyTruthyN,
                he0] at hpr
              rw [← hpr]
              simp [he0]
          | some d =>
              have hdb := hd d rfl
              have hd0 : d ≠ 0 := by omega
              simp [accelEndLine, velocEndLine, displEndLine, pyTruthyN,
                he0, hd0] at hpr
              rw [← hpr]
              simp [he0, hd0]

/-- Witness for C7 at the claim's concrete layout: markers at lines 10
(accel), 40 (veloc), 70 (end of data), no displacement marker — the
locator yields data starts 11 and 41 and end line 70; acceleration's
exclusive end is 40 (so it covers lines 11–39) and velocity's is 70
(lines 41–69), displacement being absent. -/
theorem section_ranges_w :
    locateSections markerContent =
      ⟨some 11, some 41, Option.none, some 70⟩ ∧
    accelEndLine (locateSections markerContent) = some 40 ∧
    velocEndLine (locateSections markerContent) = some 70 :=
  have h := section_ranges markerContent 10 70 (some 40) Option.none
    (by decide) (by decide) (by decide)
    (by intro v hv; cases hv; exact ⟨by decide, by decide⟩)
    (by intro d hd; cases hd)
    (by intro v hv d hd; cases hd)
    (by decide)
  ⟨h.1, h.2.1, h.2.2.1⟩

/-! ## C9: the channel splitter

Locality of the header match: a successful match of length `n` is
preserved by truncating the text at or beyond `n`; a match found on a
truncation is also a match of the full text; failures persist under
truncation.  This is what makes the re-search inside each emitted block
recover the same header and channel number. -/

theorem head?_take {α : Type} (l : List α) (m : Nat) (h : 1 ≤ m) :
    (l.take m).head? = l.head? := by
  cases l <;> cases m <;> simp_all

theorem startsWithCI_take (nd : List Char) :
    ∀ (l : List Char) (m : Nat),
      startsWithCI nd (l.take m) = true ↔
        (startsWithCI nd l = true ∧ nd.length ≤ m) := by
  induction nd with
  | nil =>
      intro l m
      simp [startsWithCI]
  | cons n ns ih =>
      intro l m
      cases l with
      | nil =>
          simp only [List.take_nil]
          simp [startsWithCI]
      | cons c cs =>
          cases m with
          | zero => simp [startsWithCI]
          | succ m' =>
              simp only [List.take_succ_cons, startsWithCI, Bool.and_eq_true,
                ih cs m', List.length_cons]
              constructor
              · rintro ⟨hx, hy, hz⟩
                exact ⟨⟨hx, hy⟩, by omega⟩
              · rintro ⟨⟨hx, hy⟩, hz⟩
                exact ⟨hx, hy, by omega⟩

theorem startsWithCI_length {nd : List Char} :
    ∀ {l : List Char}, startsWithCI nd l = true → nd.length ≤ l.length := by
  induction nd with
  | nil =>
      intro l _
      simp
  | cons n ns ih =>
      intro l h
      cases l with
      | nil => cases h
      | cons c cs =>
          simp only [startsWithCI, Bool.and_eq_true] at h
          have := ih h.2
          simp only [List.length_cons]
          omega

theorem chanWs_take (l : List Char) (m : Nat) :
    chanWs (l.take m) = (chanWs l).take (m - 4) := by
  unfold chanWs
  rw [List.drop_take, ← List.take_takeWhile]

theorem chanRest_length (l : List Char) :
    (chanRest l).length = l.length - 4 - (chanWs l).length - (chanDs l).length := by
  unfold chanRest
  simp [List.length_drop]
  omega

theorem matchChanAt_bound {l : List Char} {r : Nat × Nat}
    (h : matchChanAt l = some r) : 1 ≤ r.1 ∧ r.1 ≤ l.length := by
  unfold matchChanAt at h
  split at h
  case isFalse => cases h
  case isTrue hsw =>
    split at h
    case isFalse => cases h
    case isTrue hguard =>
      simp only [Bool.and_eq_true, decide_eq_true_eq, beq_iff_eq] at hguard
      obtain ⟨⟨hws, hds⟩, hcol⟩ := hguard
      rw [Option.some.injEq] at h
      have hr3ne : chanRest l ≠ [] := by
        intro hc
        rw [hc] at hcol
        cases hcol
      have hr3len : 0 < (chanRest l).length := List.length_pos.mpr hr3ne
      rw [chanRest_length] at hr3len
      rw [← h]
      simp only
      omega

theorem matchChanAt_take_some {l : List Char} {r : Nat × Nat}
    (h : matchChanAt l = some r) :
    ∀ m, r.1 ≤ m → matchChanAt (l.take m) = some r := by
  intro m hm
  unfold matchChanAt at h
  split at h
  case isFalse => cases h
  case isTrue hsw =>
    split at h
    case isFalse => cases h
    case isTrue hguard =>
      simp only [Bool.and_eq_true, decide_eq_true_eq, beq_iff_eq] at hguard
      obtain ⟨⟨hws, hds⟩, hcol⟩ := hguard
      rw [Option.some.injEq] at h
      have hn : r.1 = 4 + (chanWs l).length + (chanDs l).length + 1 := by
        rw [← h]
      have e2 : chanWs (l.take m) = chanWs l := by
        rw [chanWs_take]
        exact List.take_of_length_le (by omega)
      have e4 : chanDs (l.take m) = chanDs l := by
        unfold chanDs
        rw [e2, List.drop_take, List.drop_take, ← List.take_takeWhile]
        show (chanDs l).take _ = _
        exact List.take_of_length_le (by omega)
      have e5 : chanRest (l.take m) =
          (chanRest l).take (m - 4 - (chanWs l).length - (chanDs l).length) := by
        unfold chanRest
        rw [e2, e4, List.drop_take, List.drop_take, List.drop_take]
      unfold matchChanAt
      rw [if_pos ((startsWithCI_take _ _ _).mpr ⟨hsw, by have h4 : ("chan".toList).length = 4 := rfl; omega⟩)]
      rw [if_pos (by
        simp only [Bool.and_eq_true, decide_eq_true_eq, beq_iff_eq]
        refine ⟨⟨by rw [e2]; exact hws, by rw [e4]; exact hds⟩, ?_⟩
        rw [e5, head?_take _ _ (by omega)]
        exact hcol)]
      rw [e2, e4, h]

theorem matchChanAt_take_eq {l : List Char} {m : Nat} {r : Nat × Nat}
    (h : matchChanAt (l.take m) = some r) : matchChanAt l = some r := by
  unfold matchChanAt at h
  split at h
  case isFalse => cases h
  case isTrue hsw =>
    rw [startsWithCI_take] at hsw
    obtain ⟨hswl, hm4⟩ := hsw
    have hm4' : 4 ≤ m := by simpa using hm4
    split at h
    case isFalse => cases h
    case isTrue hguard =>
      simp only [Bool.and_eq_true, decide_eq_true_eq, beq_iff_eq] at hguard
      obtain ⟨⟨hws', hds'⟩, hcol'⟩ := hguard
      -- the whitespace run cannot have been cut by the truncation
      have hwsws : chanWs (l.take m) = (chanWs l).take (m - 4) := chanWs_take l m
      have hwscut : (chanWs l).length < m - 4 := by
        by_contra hc
        push_neg at hc
        have hlen : (chanWs (l.take m)).length = m - 4 := by
          rw [hwsws, List.length_take]
          omega
        have hnil : ((l.take m).drop 4).drop (chanWs (l.take m)).length = [] := by
          apply List.eq_nil_of_length_eq_zero
          rw [hlen]
          simp only [List.length_drop, List.length_take]
          omega
        have : chanDs (l.take m) = [] := by
          unfold chanDs
          rw [hnil]
          rfl
        rw [this] at hds'
        simp at hds'
      have e2 : chanWs (l.take m) = chanWs l := by
        rw [hwsws]
        exact List.take_of_length_le (by omega)
      have hdsds : chanDs (l.take m) =
          (chanDs l).take (m - 4 - (chanWs l).length) := by
        unfold chanDs
        rw [e2, List.drop_take, List.drop_take, ← List.take_takeWhile]
      -- the digit run cannot have been cut either
      have hdscut : (chanDs l).length < m - 4 - (chanWs l).length := by
        by_contra hc
        push_neg at hc
        have hlen : (chanDs (l.take m)).length = m - 4 - (chanWs l).length := by
          rw [hdsds, List.length_take]
          omega
        have hnil : chanRest (l.take m) = [] := by
          apply List.eq_nil_of_length_eq_zero
          rw [chanRest_length, hlen, e2]
          simp only [List.length_take]
          omega
        rw [hnil] at hcol'
        cases hcol'
      have e4 : chanDs (l.take m) = chanDs l := by
        rw [hdsds]
        exact List.take_of_length_le (by omega)
      have e5 : chanRest (l.take m) =
          (chanRest l).take (m - 4 - (chanWs l).length - (chanDs l).length) := by
        unfold chanRest
        rw [e2, e4, List.drop_take, List.drop_take, List.drop_take]
      rw [e2] at hws'
      rw [e4] at hds'
      rw [e5] at hcol'
      have hj : 1 ≤ m - 4 - (chanWs l).length - (chanDs l).length := by
        by_contra hc
        push_neg at hc
        have hx : m - 4 - (chanWs l).length - (chanDs l).length = 0 := by omega
        rw [hx] at hcol'
        simp at hcol'
      rw [head?_take _ _ hj] at hcol'
      rw [e2, e4] at h
      unfold matchChanAt
      rw [if_pos hswl]
      rw [if_pos (by
        simp only [Bool.and_eq_true, decide_eq_true_eq, beq_iff_eq]
        exact ⟨⟨hws', hds'⟩, hcol'⟩)]
      exact h

theorem matchChanAt_take_none {l : List Char}
    (h : matchChanAt l = Option.none) (m : Nat) :
    matchChanAt (l.take m) = Option.none := by
  cases hres : matchChanAt (l.take m) with
  | none => rfl
  | some r =>
      rw [matchChanAt_take_eq hres] at h
      cases h

theorem lazyScan_bound : ∀ {l : List Char} {r : Nat × Nat},
    lazyScan l = some r → 1 ≤ r.1 ∧ r.1 ≤ l.length := by
  intro l
  induction l with
  | nil =>
      intro r h
      cases h
  | cons c rest ih =>
      intro r h
      cases hmc : matchChanAt (c :: rest) with
      | some q =>
          have h' : some q = some r := by
            unfold lazyScan at h
            rw [hmc] at h
            exact h
          rw [← Option.some.inj h']
          exact matchChanAt_bound hmc
      | none =>
          have h' : (if c = '\n' then Option.none
              else (lazyScan rest).map (fun r => (r.1 + 1, r.2))) = some r := by
            unfold lazyScan at h
            rw [hmc] at h
            exact h
          by_cases hnl : c = '\n'
          · rw [if_pos hnl] at h'
            cases h'
          · rw [if_neg hnl] at h'
            cases hls : lazyScan rest with
            | none =>
                rw [hls] at h'
                cases h'
            | some q =>
                rw [hls] at h'
                simp only [Option.map_some'] at h'
                cases h'
                have hb := ih hls
                simp only [List.length_cons]
                omega

theorem lazyScan_take_some : ∀ {l : List Char} {r : Nat × Nat},
    lazyScan l = some r → ∀ m, r.1 ≤ m → lazyScan (l.take m) = some r := by
  intro l
  induction l with
  | nil =>
      intro r h
      cases h
  | cons c rest ih =>
      intro r h m hm
      have hb := lazyScan_bound h
      obtain ⟨m', rfl⟩ : ∃ m', m = m' + 1 := ⟨m - 1, by omega⟩
      rw [List.take_succ_cons]
      cases hmc : matchChanAt (c :: rest) with
      | some q =>
          have h' : some q = some r := by
            unfold lazyScan at h
            rw [hmc] at h
            exact h
          have hq : q = r := Option.some.inj h'
          subst hq
          have htk := matchChanAt_take_some hmc (m' + 1) hm
          rw [List.take_succ_cons] at htk
          unfold lazyScan
          rw [htk]
      | none =>
          have h' : (if c = '\n' then Option.none
              else (lazyScan rest).map (fun r => (r.1 + 1, r.2))) = some r := by
            unfold lazyScan at h
            rw [hmc] at h
            exact h
          have hmcs : matchChanAt (c :: rest.take m') = Option.none := by
            have ht := matchChanAt_take_none hmc (m' + 1)
            rw [List.take_succ_cons] at ht
            exact ht
          by_cases hnl : c = '\n'
          · rw [if_pos hnl] at h'
            cases h'
          · rw [if_neg hnl] at h'
            cases hls : lazyScan rest with
            | none =>
                rw [hls] at h'
                cases h'
            | some q =>
                rw [hls] at h'
                simp only [Option.map_some'] at h'
                cases h'
                unfold lazyScan
                rw [hmcs, if_neg hnl, ih hls m' (by
                  have := lazyScan_bound hls
                  omega)]
                rfl

theorem matchHeaderAfterAnchor_bound {l : List Char} {r : Nat × Nat}
    (h : matchHeaderAfterAnchor l = some r) : 1 ≤ r.1 ∧ r.1 ≤ l.length := by
  unfold matchHeaderAfterAnchor at h
  split at h
  case isFalse => cases h
  case isTrue hsw =>
    cases hls : lazyScan (l.drop caNeedle.length) with
    | none =>
        rw [hls] at h
        cases h
    | some q =>
        rw [hls] at h
        simp only [Option.map_some'] at h
        cases h
        have hb := lazyScan_bound hls
        have hlen := startsWithCI_length hsw
        simp only [List.length_drop] at hb
        simp only
        omega

theorem matchHeaderAfterAnchor_take_some {l : List Char} {r : Nat × Nat}
    (h : matchHeaderAfterAnchor l = some r) :
    ∀ m, r.1 ≤ m → matchHeaderAfterAnchor (l.take m) = some r := by
  intro m hm
  unfold matchHeaderAfterAnchor at h ⊢
  split at h
  case isFalse => cases h
  case isTrue hsw =>
    cases hls : lazyScan (l.drop caNeedle.length) with
    | none =>
        rw [hls] at h
        cases h
    | some q =>
        rw [hls] at h
        simp only [Option.map_some'] at h
        cases h
        have hq1 := lazyScan_bound hls
        rw [if_pos ((startsWithCI_take _ _ _).mpr ⟨hsw, by omega⟩)]
        have e1 : (l.take m).drop caNeedle.length =
            (l.drop caNeedle.length).take (m - caNeedle.length) :=
          List.drop_take _ _ _
        rw [e1, lazyScan_take_some hls (m - caNeedle.length) (by omega)]
        rfl

theorem goFind_spec : ∀ (fuel : Nat) (flag : Bool) (l : List Char) (off : Nat),
    l.length < fuel →
    ∀ s e ch, (s, e, ch) ∈ goFind fuel flag l off →
      off ≤ s ∧ s < e ∧ e ≤ off + l.length ∧
      matchHeaderAfterAnchor (l.drop (s - off)) = some (e - s, ch) := by
  intro fuel
  induction fuel with
  | zero =>
      intro flag l off hf
      omega
  | succ fuel ih =>
      intro flag l off hf s e ch hmem
      cases l with
      | nil => cases hmem
      | cons c rest =>
          cases hcase : (if flag = true then matchHeaderAfterAnchor (c :: rest)
              else Option.none) with
          | none =>
              have hmem' : (s, e, ch) ∈ goFind fuel (c == '\n') rest (off + 1) := by
                unfold goFind at hmem
                rw [hcase] at hmem
                exact hmem
              have hrest : rest.length < fuel := by
                simp only [List.length_cons] at hf
                omega
              obtain ⟨h1, h2, h3, h4⟩ := ih (c == '\n') rest (off + 1) hrest s e ch hmem'
              refine ⟨by omega, h2, by simp only [List.length_cons]; omega, ?_⟩
              have hdp : (c :: rest).drop (s - off) = rest.drop (s - off - 1) := by
                have hk : s - off = (s - off - 1) + 1 := by omega
                rw [hk, List.drop_succ_cons, Nat.add_sub_cancel]
              rw [hdp]
              have : s - off - 1 = s - (off + 1) := by omega
              rw [this]
              exact h4
          | some r =>
              have hflag : matchHeaderAfterAnchor (c :: rest) = some r := by
                cases flag with
                | false => rw [if_neg (by simp)] at hcase; cases hcase
                | true => rw [if_pos rfl] at hcase; exact hcase
              have hb := matchHeaderAfterAnchor_bound hflag
              have hmem' : (s, e, ch) ∈ (off, off + r.1, r.2) ::
                  goFind fuel (((c :: rest).take r.1).getLast? == some '\n')
                    ((c :: rest).drop r.1) (off + r.1) := by
                unfold goFind at hmem
                rw [hcase] at hmem
                exact hmem
              rcases List.mem_cons.mp hmem' with heq | htail
              · rw [Prod.mk.injEq, Prod.mk.injEq] at heq
                obtain ⟨hs, he, hch⟩ := heq
                refine ⟨by omega, by omega,
                  by simp only [List.length_cons] at hb ⊢; omega, ?_⟩
                rw [hs, he, hch]
                simp only [Nat.sub_self, List.drop_zero]
                have h5 : off + r.1 - off = r.1 := by omega
                rw [h5]
                exact hflag
              · have hlen : ((c :: rest).drop r.1).length < fuel := by
                  simp only [List.length_drop, List.length_cons] at hb ⊢
                  simp only [List.length_cons] at hf
                  omega
                obtain ⟨h1, h2, h3, h4⟩ := ih _ _ _ hlen s e ch htail
                simp only [List.length_drop, List.length_cons] at h3 hb
                refine ⟨by omega, h2, by simp only [List.length_cons]; omega, ?_⟩
                rw [List.drop_drop] at h4
                have h5 : r.1 + (s - (off + r.1)) = s - off := by omega
                rw [h5] at h4
                exact h4

theorem goFind_chain : ∀ (fuel : Nat) (flag : Bool) (l : List Char) (off : Nat),
    l.length < fuel →
    List.Chain' (fun x y : Nat × Nat × Nat => x.2.1 ≤ y.1)
      (goFind fuel flag l off) := by
  intro fuel
  induction fuel with
  | zero =>
      intro flag l off hf
      omega
  | succ fuel ih =>
      intro flag l off hf
      cases l with
      | nil => exact List.chain'_nil
      | cons c rest =>
          cases hcase : (if flag = true then matchHeaderAfterAnchor (c :: rest)
              else Option.none) with
          | none =>
              have hrest : rest.length < fuel := by
                simp only [List.length_cons] at hf
                omega
              have hch := ih (c == '\n') rest (off + 1) hrest
              show List.Chain' _ (goFind (fuel + 1) flag (c :: rest) off)
              unfold goFind
              rw [hcase]
              exact hch
          | some r =>
              have hflag : matchHeaderAfterAnchor (c :: rest) = some r := by
                cases flag with
                | false => rw [if_neg (by simp)] at hcase; cases hcase
                | true => rw [if_pos rfl] at hcase; exact hcase
              have hb := matchHeaderAfterAnchor_bound hflag
              have hlen : ((c :: rest).drop r.1).length < fuel := by
                simp only [List.length_drop, List.length_cons] at hb ⊢
                simp only [List.length_cons] at hf
                omega
              show List.Chain' _ (goFind (fuel + 1) flag (c :: rest) off)
              unfold goFind
              rw [hcase]
              rw [List.chain'_cons']
              constructor
              · intro b hb'
                have hmem : b ∈ goFind fuel (((c :: rest).take r.1).getLast? == some '\n')
                    ((c :: rest).drop r.1) (off + r.1) :=
                  List.mem_of_mem_head? hb'
                obtain ⟨hb1, _, _, _⟩ := goFind_spec fuel _ _ _ hlen b.1 b.2.1 b.2.2
                  (by simpa using hmem)
                exact hb1
              · exact ih _ _ _ hlen

theorem searchHeader_of_match {bl : List Char} {r : Nat × Nat}
    (h : matchHeaderAfterAnchor bl = some r) :
    searchHeader bl = some (0, r.1, r.2) := by
  have hb := matchHeaderAfterAnchor_bound h
  cases bl with
  | nil =>
      simp only [List.length_nil] at hb
      omega
  | cons c rest =>
      unfold searchHeader finditer goFind
      rw [show (if true = true then matchHeaderAfterAnchor (c :: rest)
        else Option.none) = some r from by rw [if_pos rfl]; exact h]
      simp

theorem space_not_c {c : Char} (h : isPySpace c = true) :
    (c.toLower == 'c') = false := by
  unfold isPySpace at h
  simp only [Bool.or_eq_true, decide_eq_true_eq] at h
  rcases h with ((((h | h) | h) | h) | h) | h <;> subst h <;> decide

theorem goFind_all_space : ∀ (fuel : Nat) (flag : Bool) (l : List Char) (off : Nat),
    (∀ c ∈ l, isPySpace c = true) → goFind fuel flag l off = [] := by
  intro fuel
  induction fuel with
  | zero =>
      intro flag l off _
      rfl
  | succ fuel ih =>
      intro flag l off h
      cases l with
      | nil => rfl
      | cons c rest =>
          have hc : isPySpace c = true := h c (by simp)
          have hsw : startsWithCI caNeedle (c :: rest) = false := by
            have hcl : caNeedle = 'c' :: "orrected accelerogram".toList := rfl
            rw [hcl]
            unfold startsWithCI
            rw [space_not_c hc]
            simp
          have hmah : matchHeaderAfterAnchor (c :: rest) = Option.none := by
            unfold matchHeaderAfterAnchor
            rw [if_neg (by rw [hsw]; simp)]
          have hnone : (if flag = true then matchHeaderAfterAnchor (c :: rest)
              else Option.none) = Option.none := by
            cases flag <;> simp [hmah]
          show goFind (fuel + 1) flag (c :: rest) off = []
          unfold goFind
          rw [hnone]
          exact ih _ rest _ (fun x hx => h x (List.mem_cons_of_mem _ hx))

theorem filterMap_range_all_some {β : Type} (f : Nat → Option β)
    (g : Nat → β) :
    ∀ (n : Nat), (∀ i, i < n → f i = some (g i)) →
      (List.range n).filterMap f = (List.range n).map g := by
  intro n
  induction n with
  | zero => intro _; rfl
  | succ n ih =>
      intro h
      rw [List.range_succ, List.filterMap_append, List.map_append,
        ih (fun i hi => h i (by omega))]
      simp [h n (by omega)]

theorem finditer_block_search (cl : List Char) (i : Nat)
    (hi : i < (finditer cl).length) :
    matchHeaderAfterAnchor ((cl.drop ((finditer cl).get ⟨i, hi⟩).1).take
        (blockEnd cl i - ((finditer cl).get ⟨i, hi⟩).1)) =
      some (((finditer cl).get ⟨i, hi⟩).2.1 - ((finditer cl).get ⟨i, hi⟩).1,
        ((finditer cl).get ⟨i, hi⟩).2.2) := by
  have hf : cl.length < cl.length + 1 := Nat.lt_succ_self _
  have hmem : (finditer cl).get ⟨i, hi⟩ ∈ finditer cl := List.get_mem _ _ _
  obtain ⟨-, h2, h3, h4⟩ := goFind_spec (cl.length + 1) true cl 0 hf
    ((finditer cl).get ⟨i, hi⟩).1 ((finditer cl).get ⟨i, hi⟩).2.1
    ((finditer cl).get ⟨i, hi⟩).2.2 hmem
  simp only [Nat.sub_zero, Nat.zero_add] at h3 h4
  rcases hnext : (finditer cl).get? (i + 1) with _ | m'
  · have hbe : blockEnd cl i = cl.length := by
      unfold blockEnd
      rw [hnext]
    rw [hbe]
    exact matchHeaderAfterAnchor_take_some h4 _ (by omega)
  · have hi1 : i + 1 < (finditer cl).length := by
      by_contra hcon
      rw [List.get?_eq_none.mpr (by omega)] at hnext
      cases hnext
    have hm' : m' = (finditer cl).get ⟨i + 1, hi1⟩ := by
      rw [List.get?_eq_get hi1] at hnext
      cases hnext
      rfl
    have hbe : blockEnd cl i = m'.1 := by
      unfold blockEnd
      rw [hnext]
    have hchain : List.Chain' (fun x y : Nat × Nat × Nat => x.2.1 ≤ y.1)
        (finditer cl) := goFind_chain (cl.length + 1) true cl 0 hf
    have hR := List.chain'_iff_get.mp hchain i (by omega)
    have hle : ((finditer cl).get ⟨i, hi⟩).2.1 ≤ m'.1 := by
      rw [hm']
      exact hR
    rw [hbe]
    exact matchHeaderAfterAnchor_take_some h4 _ (by omega)

theorem splitBody_eq (cl : List Char) (i : Nat)
    (hi : i < (finditer cl).length) :
    splitBody cl (finditer cl) i =
      some (String.mk ((cl.drop ((finditer cl).get ⟨i, hi⟩).1).take
          (blockEnd cl i - ((finditer cl).get ⟨i, hi⟩).1)),
        ((finditer cl).get ⟨i, hi⟩).2.2) := by
  have hget : (finditer cl).get? i = some ((finditer cl).get ⟨i, hi⟩) :=
    List.get?_eq_get hi
  have hsh := searchHeader_of_match (finditer_block_search cl i hi)
  unfold splitBody
  rcases hnext : (finditer cl).get? (i + 1) with _ | m' <;>
    simp only [blockEnd, hnext] at hsh <;>
    simp only [hget, hnext, blockEnd] <;>
    simp only [hsh]

theorem getD_finditer_eq (cl : List Char) (i : Nat)
    (hi : i < (finditer cl).length) :
    (finditer cl).getD i (0, 0, 0) = (finditer cl).get ⟨i, hi⟩ := by
  rw [List.getD_eq_getElem?_getD, List.getElem?_eq_getElem hi]
  rfl

/-- **C9**: for every file content, splitting produces exactly one output
block per match of the channel-header pattern; block `i` is the verbatim
text from match `i`'s start to the next match's start (or end of file for
the last), paired with the channel number re-extracted by searching the
header pattern inside the block itself (which recovers match `i`'s own
captured channel number); content before the first match is never emitted,
and when no match exists zero blocks are produced. -/
theorem split_channels_spec (content : String) :
    (split_v2_file_by_channel content).length =
      (finditer content.toList).length ∧
    (∀ i (hi : i < (finditer content.toList).length),
      (split_v2_file_by_channel content).get? i =
        some (String.mk ((content.toList.drop
            ((finditer content.toList).get ⟨i, hi⟩).1).take
          (blockEnd content.toList i -
            ((finditer content.toList).get ⟨i, hi⟩).1)),
         ((finditer content.toList).get ⟨i, hi⟩).2.2)) ∧
    (finditer content.toList = [] → split_v2_file_by_channel content = []) := by
  by_cases hsp : content.toList.all (fun c => isPySpace c) = true
  · have hms : finditer content.toList = [] := by
      unfold finditer
      refine goFind_all_space _ _ _ _ (fun c hc => ?_)
      simpa using List.all_eq_true.mp hsp c hc
    have hsplit : split_v2_file_by_channel content = [] := by
      simp only [split_v2_file_by_channel]
      rw [if_pos hsp]
    refine ⟨by rw [hsplit, hms]; rfl, ?_, fun _ => hsplit⟩
    intro i hi
    rw [hms] at hi
    exact absurd hi (by simp)
  · have hsplit : split_v2_file_by_channel content =
        (List.range (finditer content.toList).length).map
          (fun j => (String.mk ((content.toList.drop
              ((finditer content.toList).getD j (0, 0, 0)).1).take
            (blockEnd content.toList j -
              ((finditer content.toList).getD j (0, 0, 0)).1)),
           ((finditer content.toList).getD j (0, 0, 0)).2.2)) := by
      simp only [split_v2_file_by_channel]
      rw [if_neg hsp]
      refine filterMap_range_all_some _ _ _ (fun j hj => ?_)
      simp only [getD_finditer_eq content.toList j hj]
      exact splitBody_eq content.toList j hj
    refine ⟨?_, ?_, ?_⟩
    · rw [hsplit]
      simp
    · intro i hi
      rw [hsplit, List.get?_map, List.get?_eq_get (by simpa using hi),
        List.get_range, Option.map_some']
      simp only [getD_finditer_eq content.toList i hi]
    · intro hms
      rw [hsplit, hms]
      simp

theorem split_channels_spec_w :
    (split_v2_file_by_channel demoSplitContent).length =
      (finditer demoSplitContent.toList).length ∧
    (finditer demoSplitContent.toList).length = 3 ∧
    (split_v2_file_by_channel demoSplitContent).map Prod.snd = [1, 3, 5] :=
  ⟨(split_channels_spec demoSplitContent).1, by decide, by decide⟩

/-! ## The fallible header scan: frame and transfer lemmas -/

theorem bindE_ok {α : Type} {x : Except PyExc α} {f : α → Except PyExc α}
    {b : α} (h : x >>= f = .ok b) : ∃ a, x = .ok a ∧ f a = .ok b := by
  cases x with
  | error e =>
      have h' : (Except.error e : Except PyExc α) = .ok b := h
      cases h'
  | ok a => exact ⟨a, rfl, h⟩

theorem peakStep_fields {g : Option String} {conv : String → Option ℚ}
    {field : String} {st st' : ScanState}
    (hf : ∀ m v, (setItem m field v).utc_time = m.utc_time ∧
      (setItem m field v).observation_time = m.observation_time)
    (h : peakStep g conv field st = .ok st') :
    st'.1.utc_time = st.1.utc_time ∧
    st'.1.observation_time = st.1.observation_time := by
  cases g with
  | none =>
      have h' : (Except.ok st : Except PyExc ScanState) = .ok st' := h
      cases h'
      exact ⟨rfl, rfl⟩
  | some t =>
      cases hc : conv t with
      | none =>
          have h' : (Except.error .valueError : Except PyExc ScanState) = .ok st' := by
            have h1 : (match conv t with
                | some q => (Except.ok (setItem st.1 field (.float q), st.2) :
                    Except PyExc ScanState)
                | Option.none => Except.error .valueError) = .ok st' := h
            rw [hc] at h1
            exact h1
          cases h'
      | some q =>
          have h' : (Except.ok (setItem st.1 field (.float q), st.2) :
              Except PyExc ScanState) = .ok st' := by
            have h1 : (match conv t with
                | some q => (Except.ok (setItem st.1 field (.float q), st.2) :
                    Except PyExc ScanState)
                | Option.none => Except.error .valueError) = .ok st' := h
            rw [hc] at h1
            exact h1
          cases h'
          exact ⟨(hf st.1 (.float q)).1, (hf st.1 (.float q)).2⟩

theorem applyStationE_fields {M : MatchersR} {conv : String → Option ℚ}
    {line : String} {st st' : ScanState}
    (h : applyStationE M conv line st = .ok st') :
    st'.1.utc_time = st.1.utc_time ∧
    st'.1.observation_time = st.1.observation_time := by
  unfold applyStationE at h
  cases hs : M.station line with
  | none =>
      simp only [hs] at h
      cases h
      exact ⟨rfl, rfl⟩
  | some c =>
      simp only [hs] at h
      cases hla : conv c.lat with
      | none =>
          simp only [hla] at h
          cases h
      | some la =>
          simp only [hla] at h
          cases hlo : conv c.lon with
          | none =>
              simp only [hlo] at h
              cases h
          | some lo =>
              simp only [hlo] at h
              cases h
              constructor <;> simp

theorem applyIntervalE_fields {M : MatchersR} {conv : String → Option ℚ}
    {line : String} {st st' : ScanState}
    (h : applyIntervalE M conv line st = .ok st') :
    st'.1.utc_time = st.1.utc_time ∧
    st'.1.observation_time = st.1.observation_time := by
  unfold applyIntervalE at h
  cases hs : M.interval line with
  | none =>
      simp only [hs] at h
      cases h
      exact ⟨rfl, rfl⟩
  | some t =>
      simp only [hs] at h
      cases hc : conv t with
      | none =>
          simp only [hc] at h
          cases h
      | some q =>
          simp only [hc] at h
          by_cases hz : q = 0
          · rw [if_pos hz] at h
            cases h
          · rw [if_neg hz] at h
            cases h
            constructor <;> simp

theorem applyPeaksE_fields {M : MatchersR} {conv : String → Option ℚ}
    {line : String} {st st' : ScanState}
    (h : applyPeaksE M conv line st = .ok st') :
    st'.1.utc_time = st.1.utc_time ∧
    st'.1.observation_time = st.1.observation_time := by
  unfold applyPeaksE at h
  obtain ⟨s1, h1, h⟩ := bindE_ok h
  obtain ⟨s2, h2, h3⟩ := bindE_ok h
  obtain ⟨e1a, e1b⟩ := peakStep_fields
    (fun m v => by constructor <;> simp) h1
  obtain ⟨e2a, e2b⟩ := peakStep_fields
    (fun m v => by constructor <;> simp) h2
  obtain ⟨e3a, e3b⟩ := peakStep_fields
    (fun m v => by constructor <;> simp) h3
  exact ⟨by rw [e3a, e2a, e1a], by rw [e3b, e2b, e1b]⟩

theorem applyLineE_ok_fields (M : MatchersR) (conv : String → Option ℚ)
    (st st' : ScanState) (line : String)
    (h : applyLineE M conv st line = .ok st') :
    st'.1.utc_time = (applyLine (M.total conv) st line).1.utc_time ∧
    st'.1.observation_time =
      (applyLine (M.total conv) st line).1.observation_time := by
  unfold applyLineE at h
  obtain ⟨st2, hsta, h⟩ := bindE_ok h
  obtain ⟨st3, hinstr, h⟩ := bindE_ok h
  obtain ⟨st4, hint, hpk⟩ := bindE_ok h
  obtain ⟨sa, sb⟩ := applyStationE_fields hsta
  obtain ⟨ia, ib⟩ := peakStep_fields (fun m v => by constructor <;> simp) hinstr
  obtain ⟨na, nb⟩ := applyIntervalE_fields hint
  obtain ⟨pa, pb⟩ := applyPeaksE_fields hpk
  have hmu : (applyMag (M.total conv) line
      (applyHypo (M.total conv) line st2)).1.utc_time = st2.1.utc_time := by
    have k : utcView (applyMag (M.total conv) line
        (applyHypo (M.total conv) line st2)).1 = utcView st2.1 := by
      rw [uv_applyMag, uv_applyHypo]
    exact congrArg (fun t => t.1) k
  have hmo : (applyMag (M.total conv) line
      (applyHypo (M.total conv) line st2)).1.observation_time =
      st2.1.observation_time := by
    rw [ob_applyMag, ob_applyHypo]
  have htu : (applyLine (M.total conv) st line).1.utc_time =
      (applyOrigin (M.total conv) line (applyUtc (M.total conv) line
        (applyDate (M.total conv) line (applyStaChan (M.total conv) line
          (applyChan (M.total conv) line st))))).1.utc_time := by
    have huv : utcView (applyLine (M.total conv) st line).1 =
        utcView (applyOrigin (M.total conv) line (applyUtc (M.total conv) line
          (applyDate (M.total conv) line (applyStaChan (M.total conv) line
            (applyChan (M.total conv) line st))))).1 := by
      unfold applyLine
      simp only [uv_applyPeaks, uv_applyInterval, uv_applyInstr, uv_applyMag,
        uv_applyHypo, uv_applyStation]
    exact congrArg (fun t => t.1) huv
  have hto : (applyLine (M.total conv) st line).1.observation_time =
      (applyOrigin (M.total conv) line (applyUtc (M.total conv) line
        (applyDate (M.total conv) line (applyStaChan (M.total conv) line
          (applyChan (M.total conv) line st))))).1.observation_time := by
    unfold applyLine
    simp only [ob_applyPeaks, ob_applyInterval, ob_applyInstr, ob_applyMag,
      ob_applyHypo, ob_applyStation]
  constructor
  · rw [pa, na, ia, hmu, sa, htu]
  · rw [pb, nb, ib, hmo, sb, hto]

theorem scanE_fields (M : MatchersR) (conv : String → Option ℚ)
    (hU : ∀ l c, M.utc l = some c → c.g0 ≠ "") :
    ∀ (ls : List String) (stE stT st' : ScanState),
      stE.1.utc_time = stT.1.utc_time →
      stE.1.observation_time = stT.1.observation_time →
      ls.foldlM (applyLineE M conv) stE = .ok st' →
      st'.1.utc_time =
        (ls.foldl (applyLine (M.total conv)) stT).1.utc_time ∧
      st'.1.observation_time =
        (ls.foldl (applyLine (M.total conv)) stT).1.observation_time := by
  intro ls
  induction ls with
  | nil =>
      intro stE stT st' h1 h2 h
      have h' : (Except.ok stE : Except PyExc ScanState) = .ok st' := h
      cases h'
      exact ⟨h1, h2⟩
  | cons l rest ih =>
      intro stE stT st' h1 h2 h
      rw [List.foldlM_cons] at h
      obtain ⟨st2, hstep, hrest⟩ := bindE_ok h
      obtain ⟨f1, f2⟩ := applyLineE_ok_fields M conv stE st2 l hstep
      rw [List.foldl_cons]
      refine ih st2 (applyLine (M.total conv) stT l) st' ?_ ?_ hrest
      · rw [f1, applyLine_utc_time (M.total conv) stE l (fun c hc => hU l c hc),
          applyLine_utc_time (M.total conv) stT l (fun c hc => hU l c hc), h1]
      · rw [f2, applyLine_ob (M.total conv) stE l,
          applyLine_ob (M.total conv) stT l, h2]

theorem testMatchersR_caps : capsNonempty (testMatchersR.total floatModel) := by
  refine ⟨?_, ?_, ?_, ?_⟩ <;> intro l c hc <;>
    simp only [MatchersR.total, testMatchersR] at hc
  · split at hc
    · cases hc
      simp [dateCapA]
    · cases hc
  · cases hc
  · split at hc
    · cases hc
      simp [utcCapA]
    · cases hc
  · split at hc
    · cases hc
      simp [originCapA]
    · cases hc

/-- **C6 (amended)**: the parse fails with the missing-timestamp condition
if and only if the header scan runs to completion without an uncaught
conversion error and none of the four timestamp forms (record-of,
earthquake-of, Start-time, ORIGIN) matched within the first 30 lines; an
uncaught `float()` error earlier in the scan preempts the timestamp check,
and no default timestamp is ever substituted. -/
theorem missing_timestamp_iffE (M : MatchersR) (conv : String → Option ℚ)
    (fp : String) (content : List String)
    (h : capsNonempty (M.total conv)) :
    (parse_v2_fileE M conv fp content = .error .missingTimestamp ↔
      (headerScanE M conv fp content).isOk = true ∧
      ∀ l ∈ content.take 30, noTimestampMatch (M.total conv) l) := by
  obtain ⟨hD, hE, hU, hO⟩ := h
  rcases hscan : headerScanE M conv fp content with e | st
  · constructor
    · intro hres
      simp only [parse_v2_fileE, hscan] at hres
      simp at hres
    · rintro ⟨hok, -⟩
      have h' : false = true := hok
      cases h'
  · have hscan' : (content.take 30).foldlM (applyLineE M conv)
        (Metadata.from_filepath fp, Option.none) = .ok st := hscan
    obtain ⟨htu, hto⟩ := scanE_fields M conv hU (content.take 30)
      (Metadata.from_filepath fp, Option.none)
      (Metadata.from_filepath fp, Option.none) st rfl rfl hscan'
    have hcu := scan_utc_truthy (M.total conv) hU hO (content.take 30)
      (Metadata.from_filepath fp, Option.none) rfl
    have hco := scan_ob_truthy (M.total conv) hD hE (content.take 30)
      (Metadata.from_filepath fp, Option.none) rfl
    have hsplit : parse_v2_fileE M conv fp content = .error .missingTimestamp ↔
        (!pyTruthy st.1.utc_time && !pyTruthy st.1.observation_time) = true := by
      simp only [parse_v2_fileE, hscan]
      rw [get_utc_time, get_observation_time]
      constructor
      · intro hres
        by_contra hcond
        rw [if_neg hcond] at hres
        split at hres
        · cases hres
        · split at hres
          · cases hres
          · cases hres
      · intro hcond
        rw [if_pos hcond]
    rw [hsplit, Bool.and_eq_true, Bool.not_eq_true', Bool.not_eq_true']
    constructor
    · rintro ⟨hu, ho⟩
      refine ⟨rfl, ?_⟩
      have hu' : pyTruthy ((content.take 30).foldl (applyLine (M.total conv))
          (Metadata.from_filepath fp, Option.none)).1.utc_time = false := by
        rw [← htu]
        exact hu
      have ho' : pyTruthy ((content.take 30).foldl (applyLine (M.total conv))
          (Metadata.from_filepath fp, Option.none)).1.observation_time = false := by
        rw [← hto]
        exact ho
      intro l hl
      have hnu : ¬ ∃ x ∈ content.take 30,
          ((M.total conv).utc x).isSome ∨ ((M.total conv).origin x).isSome := by
        intro hex
        have := hcu.mpr hex
        rw [this] at hu'
        cases hu'
      have hno : ¬ ∃ x ∈ content.take 30,
          ((M.total conv).date x).isSome ∨ ((M.total conv).earth x).isSome := by
        intro hex
        have := hco.mpr hex
        rw [this] at ho'
        cases ho'
      refine ⟨?_, ?_, ?_, ?_⟩
      · cases hx : (M.total conv).date l with
        | some c => exact absurd ⟨l, hl, Or.inl (by simp [hx])⟩ hno
        | none => rfl
      · cases hx : (M.total conv).earth l with
        | some c => exact absurd ⟨l, hl, Or.inr (by simp [hx])⟩ hno
        | none => rfl
      · cases hx : (M.total conv).utc l with
        | some c => exact absurd ⟨l, hl, Or.inl (by simp [hx])⟩ hnu
        | none => rfl
      · cases hx : (M.total conv).origin l with
        | some c => exact absurd ⟨l, hl, Or.inr (by simp [hx])⟩ hnu
        | none => rfl
    · rintro ⟨-, hall⟩
      constructor
      · rw [htu, ← Bool.not_eq_true]
        intro htr
        rcases hcu.mp htr with ⟨x, hx, hor⟩
        rcases hall x hx with ⟨_, _, hxu, hxo⟩
        rcases hor with hs | hs
        · rw [hxu] at hs
          cases hs
        · rw [hxo] at hs
          cases hs
      · rw [hto, ← Bool.not_eq_true]
        intro htr
        rcases hco.mp htr with ⟨x, hx, hor⟩
        rcases hall x hx with ⟨hxd, hxe, _, _⟩
        rcases hor with hs | hs
        · rw [hxd] at hs
          cases hs
        · rw [hxe] at hs
          cases hs

/-- Witness for C6: a header with none of the four timestamp forms and no
conversion failure fails with the missing-timestamp condition. -/
theorem missing_timestamp_iffE_w :
    parse_v2_fileE testMatchersR floatModel "f.V2"
      ["HDR", "points of accel data equally spaced", "       1.0",
       "end of data for channel"] = .error .missingTimestamp :=
  (missing_timestamp_iffE testMatchersR floatModel "f.V2" _
    testMatchersR_caps).mpr (by decide)

/-- **C6 (counterexample)**: a header in which none of the four timestamp
forms matches, but whose `"Peak acceleration = -"` line makes `float()`
raise at `parser.py` 138 — the parse fails with the uncaught `ValueError`
before the timestamp check at line 150 is reached, not with the
missing-timestamp condition, refuting the unconditional iff. -/
theorem missing_timestamp_cexE :
    (∀ l ∈ cexNoTsBadPeak.take 30,
      noTimestampMatch (testMatchersR.total floatModel) l) ∧
    parse_v2_fileE testMatchersR floatModel "f.V2" cexNoTsBadPeak =
      .error (.headerExc .valueError) :=
  ⟨by decide, by decide⟩

/-- **C3 (amended)**: `parse_v2_file` returns one record or fails with the
first fatal condition encountered among: an uncaught exception escaping
the header scan (`float()`'s `ValueError` on a matched but unconvertible
capture — e.g. a peak of `"-"` or a latitude of `"."` — or
`ZeroDivisionError` on a zero captured interval), missing timestamp,
missing acceleration section, or — exactly when the acceleration marker is
present but neither a velocity marker nor an end-of-data marker exists —
an unhandled `TypeError` from the unbounded acceleration range. -/
theorem parse_outcomesE (M : MatchersR) (conv : String → Option ℚ)
    (fp : String) (content : List String) :
    (∃ r, parse_v2_fileE M conv fp content = .ok r) ∨
    (∃ e, parse_v2_fileE M conv fp content = .error (.headerExc e) ∧
      headerScanE M conv fp content = .error e) ∨
    parse_v2_fileE M conv fp content = .error .missingTimestamp ∨
    parse_v2_fileE M conv fp content = .error .missingAccel ∨
    (parse_v2_fileE M conv fp content = .error .sectionRangeTypeError ∧
      ((locateSections content).accelStart).isSome ∧
      (locateSections content).velocStart = Option.none ∧
      (locateSections content).endLine = Option.none) := by
  rcases hscan : headerScanE M conv fp content with e | st
  · refine Or.inr (Or.inl ⟨e, ?_, rfl⟩)
    simp only [parse_v2_fileE, hscan]
  · rcases hres : parse_v2_fileE M conv fp content with err | r
    case ok => exact Or.inl ⟨r, rfl⟩
    case error =>
      simp only [parse_v2_fileE, hscan] at hres
      split at hres
      · cases hres
        exact Or.inr (Or.inr (Or.inl rfl))
      · split at hres
        case h_1 ha =>
            cases hres
            exact Or.inr (Or.inr (Or.inr (Or.inl rfl)))
        case h_2 a ha =>
            split at hres
            case h_2 e he => cases hres
            case h_1 he =>
                cases hres
                refine Or.inr (Or.inr (Or.inr (Or.inr ⟨rfl, by simp [ha], ?_, ?_⟩)))
                · unfold accelEndLine at he
                  by_cases hv : pyTruthyN (locateSections content).velocStart = true
                  · rw [if_pos hv] at he
                    cases hvs : (locateSections content).velocStart with
                    | none => rfl
                    | some v =>
                        rw [hvs] at he
                        cases he
                  · cases hvs : (locateSections content).velocStart with
                    | none => rfl
                    | some v =>
                        exfalso
                        apply hv
                        rw [hvs]
                        have := (locate_starts_pos content).2.1 v hvs
                        simp [pyTruthyN]
                        omega
                · unfold accelEndLine at he
                  by_cases hv : pyTruthyN (locateSections content).velocStart = true
                  · rw [if_pos hv] at he
                    cases hvs : (locateSections content).velocStart with
                    | none =>
                        rw [hvs] at hv
                        cases hv
                    | some v =>
                        rw [hvs] at he
                        cases he
                  · rw [if_neg hv] at he
                    exact he

/-- **C3 (counterexample)**: an input with a recoverable timestamp and an
acceleration marker, but neither a velocity marker nor an end-of-data
marker, makes the parse fail with a condition outside the claim's two —
the `TypeError` from `range(accel_start_line, None)`. -/
theorem parse_third_failure_cexE :
    parse_v2_fileE testMatchersR floatModel "f.V2" cexContent =
      .error .sectionRangeTypeError ∧
    (headerScanE testMatchersR floatModel "f.V2" cexContent).isOk = true ∧
    pyTruthy (((headerScanE testMatchersR floatModel "f.V2"
        cexContent).toOption.getD (emptyMetadata, Option.none)).1.get
      "observation_time" .none) = true ∧
    ((locateSections cexContent).accelStart).isSome = true :=
  ⟨by decide, by decide, by decide, by decide⟩

/-- A zero captured interval: `1.0 / interval` raises an uncaught
`ZeroDivisionError` (`parser.py` 131), escaping the parse. -/
theorem interval_zero_division_demo :
    parse_v2_fileE testMatchersR floatModel "f.V2"
      ["RCRD", "INT0", "points of accel data equally spaced",
       "end of data for channel"] = .error (.headerExc .zeroDivision) := by
  decide

end Cesmd
